import Mathlib

/-!
Verification development for the mongo-sync repository.

Each section shallowly embeds one component of the source:
* the client retry queue (`SyncRetryService`, retry-service.ts),
* the delta codec (`DeltaSyncService`, delta-sync.service.ts),
* the server reconciliation loop (`SyncService.processChanges` and
  `SyncService.markDocumentsAsDeleted`, sync-service.ts),
* the admission monitor (`SecurityMiddleware.detectTimingAnomaly` and its
  helpers, security middleware).

JavaScript numbers are modelled as `Int` or `Rat`; external collaborators
(the MongoDB driver, the delivery callback of the retry queue) are either
given concrete list-based semantics or taken as parameters.
-/

namespace MongoSync

/-! ## Retry queue (retry-service.ts, `SyncRetryService`) -/

/-- Push or pull direction of a queued operation. -/
inductive SyncOp where
  | push
  | pull
deriving DecidableEq, Repr

/-- The `SyncAttempt` record persisted by the retry queue.  `payload` is kept
opaque. -/
structure SyncAttempt where
  id : String
  collectionName : String
  operation : SyncOp
  payload : String
  timestamp : Int
  retries : Nat
  lastError : Option String
deriving DecidableEq, Repr

/-- Score by which the source's comparator orders attempts: the comparator
`(a.timestamp - b.timestamp) - (a.retries * 10000 - b.retries * 10000)`
equals `sortScore a - sortScore b`, so `Array.prototype.sort` sorts
ascending by this score (stably). -/
def sortScore (a : SyncAttempt) : Int :=
  a.timestamp - 10000 * (a.retries : Int)

/-- Stable insertion used to model the (stable) JavaScript sort. -/
def insertByScore (x : SyncAttempt) : List SyncAttempt → List SyncAttempt
  | [] => [x]
  | y :: ys =>
    if sortScore x ≤ sortScore y then x :: y :: ys else y :: insertByScore x ys

/-- The sorted copy `[...this.pendingAttempts].sort(comparator)` computed at
the start of `processRetries`. -/
def sortAttempts : List SyncAttempt → List SyncAttempt
  | [] => []
  | x :: xs => insertByScore x (sortAttempts xs)

/-- One iteration of the `for (const attempt of batch)` loop body.
`deliver` models `retrySyncOperation`, which the source leaves unimplemented
("Esta função seria implementada..."); `none` is a successful re-delivery,
`some msg` a failure throwing an error with message `msg`.  On success the
attempt is removed; on failure `retries` is incremented (the mutation is
visible through the queue, which holds the same object) and the attempt is
removed once `retries` exceeds 10. -/
def retryStep (deliver : SyncAttempt → Option String) (cur : List SyncAttempt)
    (a : SyncAttempt) : List SyncAttempt :=
  match deliver a with
  | none => cur.filter (fun x => x.id ≠ a.id)
  | some msg =>
    let nr := a.retries + 1
    let cur' := cur.map (fun x =>
      if x.id = a.id then { x with retries := nr, lastError := some msg } else x)
    if nr > 10 then cur'.filter (fun x => x.id ≠ a.id) else cur'

/-- The `processRetries` pass: bail out when offline or the queue is empty,
otherwise sort, take a batch of at most 5, run the loop, then persist and
emit the new pending count on the `pendingCount$` subject.  The returned
list of naturals is every count emitted during the pass (the only externally
observable signal the pass produces). -/
def processRetries (online : Bool) (deliver : SyncAttempt → Option String)
    (q : List SyncAttempt) : List SyncAttempt × List Nat :=
  if !online ∨ q.isEmpty then (q, [])
  else
    let batch := (sortAttempts q).take 5
    let cur := batch.foldl (retryStep deliver) q
    (cur, [cur.length])

/-- No attempt with id `i` is in the queue. -/
def idAbsent (q : List SyncAttempt) (i : String) : Prop :=
  ∀ x ∈ q, x.id ≠ i

/-! ## Delta codec (delta-sync.service.ts, `DeltaSyncService`)

The service serializes documents with `JSON.stringify` and diffs them with
the external `jsondiffpatch` library.  Documents are modelled as flat JSON
objects — string-keyed lists of atomic values — which matches every document
shape the repository synchronizes; `jsondiffpatch` is modelled on this
fragment following its documented delta format (added `[v]`, modified
`[old, new]`, deleted `[old, 0, 0]`, and `undefined` when the two objects
are equal). -/

/-- An atomic JSON value of a document field. -/
inductive JAtom where
  | jnull
  | jbool (b : Bool)
  | jint (n : Int)
  | jstr (s : String)
deriving DecidableEq, Repr

/-- A flat JSON document: an ordered list of string-keyed atomic fields
(JavaScript objects preserve insertion order for string keys). -/
structure JDoc where
  fields : List (String × JAtom)
deriving DecidableEq, Repr

/-- Association-list lookup, modelling JavaScript property access `o[k]`. -/
def lk {α : Type} (l : List (String × α)) (k : String) : Option α :=
  match l with
  | [] => none
  | p :: rest => if p.1 = k then some p.2 else lk rest k

/-- Property assignment `o[k] = v`: overwrite in place when the key exists,
append otherwise. -/
def setKey {α : Type} (l : List (String × α)) (k : String) (v : α) :
    List (String × α) :=
  match l with
  | [] => [(k, v)]
  | p :: rest => if p.1 = k then (k, v) :: rest else p :: setKey rest k v

/-- Property deletion `delete o[k]` (removes every binding of the key; with
duplicate-free keys this is the first and only one). -/
def delKey {α : Type} (l : List (String × α)) (k : String) : List (String × α) :=
  match l with
  | [] => []
  | p :: rest => if p.1 = k then delKey rest k else p :: delKey rest k

/-- Keys of an association list. -/
def keysOf {α : Type} (l : List (String × α)) : List String :=
  l.map (fun p => p.1)

/-- A per-field entry of a `jsondiffpatch` delta. -/
inductive FieldDelta where
  | added (v : JAtom)
  | changed (o n : JAtom)
  | removed (o : JAtom)
deriving DecidableEq, Repr

/-- A `jsondiffpatch` delta over a flat object. -/
def DeltaObj : Type := List (String × FieldDelta)

instance : DecidableEq DeltaObj := by
  unfold DeltaObj
  infer_instance

instance : Repr DeltaObj := by
  unfold DeltaObj
  infer_instance

/-- Delta entry contributed by a key of the left object: a removal when the
key is gone on the right, a modification when the value changed, nothing
when the value is unchanged. -/
def modOf (fr : List (String × JAtom)) (k : String) (v : JAtom) :
    Option FieldDelta :=
  match lk fr k with
  | none => some (FieldDelta.removed v)
  | some vr => if v = vr then none else some (FieldDelta.changed v vr)

/-- Delta entry contributed by a key of the right object: an addition when
the key is absent on the left. -/
def addOf (fl : List (String × JAtom)) (k : String) (v : JAtom) :
    Option FieldDelta :=
  match lk fl k with
  | none => some (FieldDelta.added v)
  | some _ => none

/-- The entry list of the `jsondiffpatch` diff of two flat objects: left
keys produce removals and modifications (equal values are omitted), then
keys only on the right produce additions. -/
def diffList (fl fr : List (String × JAtom)) : DeltaObj :=
  fl.filterMap (fun p => (modOf fr p.1 p.2).map (Prod.mk p.1)) ++
    fr.filterMap (fun p => (addOf fl p.1 p.2).map (Prod.mk p.1))

/-- The `jsondiffpatch` diff: an empty delta is `undefined` (`none`). -/
def diffObj (fl fr : List (String × JAtom)) : Option DeltaObj :=
  match diffList fl fr with
  | [] => none
  | d => some d

/-- The `jsondiffpatch` patch of one delta entry into a flat object:
additions and modifications assign the new value (the recorded old value is
never consulted), removals delete the key. -/
def patchField (fs : List (String × JAtom)) (k : String) (d : FieldDelta) :
    List (String × JAtom) :=
  match d with
  | FieldDelta.added v => setKey fs k v
  | FieldDelta.changed _ n => setKey fs k n
  | FieldDelta.removed _ => delKey fs k

/-- The `jsondiffpatch` patch of a whole delta. -/
def patchObj (fs : List (String × JAtom)) (ds : DeltaObj) :
    List (String × JAtom) :=
  ds.foldl (fun acc p => patchField acc p.1 p.2) fs

/-- Number of UTF-16 code units `JSON.stringify` emits for one character of
a string (escapes for quote, backslash and the short control escapes take 2,
other control characters take a 6-character unicode escape, astral
characters take a surrogate pair). -/
def escCharLen (c : Char) : Nat :=
  if c = '"' ∨ c = '\\' ∨ c = '\n' ∨ c = '\t' ∨ c = '\r' ∨
      c = Char.ofNat 8 ∨ c = Char.ofNat 12 then 2
  else if c.val < 32 then 6
  else if c.val ≥ 65536 then 2
  else 1

/-- Serialized length of a JSON string literal (quotes included). -/
def strLen (s : String) : Nat :=
  2 + (s.data.map escCharLen).sum

/-- Number of decimal digits of a natural number, with structural fuel
(the fuel `n` always suffices since each step divides by 10). -/
def natDigitsGo : Nat → Nat → Nat
  | 0, _ => 1
  | fuel + 1, n => if n < 10 then 1 else 1 + natDigitsGo fuel (n / 10)

/-- Number of decimal digits of a natural number. -/
def natDigits (n : Nat) : Nat :=
  natDigitsGo n n

/-- Serialized length of an integer literal. -/
def intLen (n : Int) : Nat :=
  (if n < 0 then 1 else 0) + natDigits n.natAbs

/-- Serialized length (`JSON.stringify(v).length`) of an atomic value. -/
def atomLen (a : JAtom) : Nat :=
  match a with
  | JAtom.jnull => 4
  | JAtom.jbool true => 4
  | JAtom.jbool false => 5
  | JAtom.jint n => intLen n
  | JAtom.jstr s => strLen s

/-- Serialized length of a list of `"key":value` members joined by commas
and wrapped in braces. -/
def membersLen (lens : List Nat) : Nat :=
  match lens with
  | [] => 2
  | l => 2 + l.sum + (l.length - 1)

/-- Serialized length (`JSON.stringify(doc).length`) of a flat document. -/
def jdocLen (d : JDoc) : Nat :=
  membersLen (d.fields.map (fun p => strLen p.1 + 1 + atomLen p.2))

/-- Serialized length of one delta entry value (`[v]`, `[o,n]` or
`[o,0,0]`). -/
def fieldDeltaLen (d : FieldDelta) : Nat :=
  match d with
  | FieldDelta.added v => 2 + atomLen v
  | FieldDelta.changed o n => 3 + atomLen o + atomLen n
  | FieldDelta.removed o => 6 + atomLen o

/-- Serialized length (`JSON.stringify(delta).length`) of a delta object. -/
def deltaLen (ds : DeltaObj) : Nat :=
  membersLen (ds.map (fun p => strLen p.1 + 1 + fieldDeltaLen p.2))

/-- JavaScript truthiness of an atomic value (`lastVersion._rev || 0`). -/
def truthyAtom (a : JAtom) : Bool :=
  match a with
  | JAtom.jnull => false
  | JAtom.jbool b => b
  | JAtom.jint n => n ≠ 0
  | JAtom.jstr s => s ≠ ""

/-- The base-version tag `lastVersion._rev || 0` recorded in a delta unit. -/
def revOf (d : JDoc) : JAtom :=
  match lk d.fields "_rev" with
  | some a => if truthyAtom a then a else JAtom.jint 0
  | none => JAtom.jint 0

/-- The transfer unit returned by `generateDelta`: either
`\x7b fullDocument \x7d` or `\x7b delta, baseVersion \x7d`. -/
inductive TransferUnit where
  | full (d : JDoc)
  | delta (ds : DeltaObj) (baseVersion : JAtom)
deriving DecidableEq, Repr

/-- The body of `generateDelta` after the `lastSyncedVersions` lookup.  When
the two documents are equal, `jsondiffpatch` returns `undefined`, and
`JSON.stringify(undefined).length` throws a `TypeError` — modelled as
`Except.error`.  The threshold test `deltaSize > docSize * 0.6` is modelled
exactly as `5 * deltaSize > 3 * docSize`; both sizes are integers, so the
rational comparison agrees with the IEEE-754 one (the relative error of the
double product is below half an ulp). -/
def generateDeltaCore (lastVersion : Option JDoc) (currentDoc : JDoc) :
    Except String TransferUnit :=
  match lastVersion with
  | none => Except.ok (TransferUnit.full currentDoc)
  | some lv =>
    match diffObj lv.fields currentDoc.fields with
    | none => Except.error "TypeError: cannot read length of undefined"
    | some ds =>
      let deltaSize := deltaLen ds
      let docSize := jdocLen currentDoc
      if 5 * deltaSize > 3 * docSize then Except.ok (TransferUnit.full currentDoc)
      else Except.ok (TransferUnit.delta ds (revOf lv))

/-- The per-collection map `lastSyncedVersions` of the service. -/
def Versions : Type := List ((String × String) × JDoc)

/-- `generateDelta(collectionName, docId, currentDoc)` including the
`getLastSyncedVersion` lookup. -/
def generateDelta (st : Versions) (collectionName docId : String)
    (currentDoc : JDoc) : Except String TransferUnit :=
  generateDeltaCore
    ((st : List ((String × String) × JDoc)).lookup (collectionName, docId))
    currentDoc

/-- The source's `applyDelta(document, delta)`: a bare `diffPatcher.patch`.
No base-version comparison happens anywhere in it. -/
def applyDelta (document : JDoc) (delta : DeltaObj) : JDoc :=
  JDoc.mk (patchObj document.fields delta)

/-- Modelled from the spec: the unit-level `apply(base, unit)` of section
4.2 is not present in the repository (no caller of `generateDelta` or
`applyDelta` exists under src); per the spec's words, applying `Full` simply
returns its payload and applying `Delta` patches the base via the service's
`applyDelta`. -/
def applyUnit (base : JDoc) (u : TransferUnit) : JDoc :=
  match u with
  | TransferUnit.full d => d
  | TransferUnit.delta ds _ => applyDelta base ds

/-- Duplicate-free keys of a flat object. -/
abbrev NdKeys {α : Type} (l : List (String × α)) : Prop :=
  (keysOf l).Nodup

/-- Pointwise description of the diff: what `diffList` records for a key,
given what the two objects hold there. -/
def dSpec : Option JAtom → Option JAtom → Option FieldDelta
  | some vl, some vr =>
    if vl = vr then none else some (FieldDelta.changed vl vr)
  | some vl, none => some (FieldDelta.removed vl)
  | none, some vr => some (FieldDelta.added vr)
  | none, none => none

/-- Pointwise description of the patch: what the patched object holds at a
key, given the delta entry and the base object's value there. -/
def pSpec : Option FieldDelta → Option JAtom → Option JAtom
  | some (FieldDelta.added v), _ => some v
  | some (FieldDelta.changed _ n), _ => some n
  | some (FieldDelta.removed _), _ => none
  | none, o => o

/-- JSON deep-equality of flat documents (objects are unordered maps). -/
def jdocEquiv (a b : JDoc) : Prop :=
  (∀ p ∈ a.fields, lk b.fields p.1 = some p.2) ∧
  (∀ p ∈ b.fields, lk a.fields p.1 = some p.2)

/-! ## Server reconciliation (sync-service.ts, `SyncService`)

`processChanges(collectionName, changes, userId)` iterates over the incoming
changed documents, validating, checking ownership, stamping the user id and
resolving against the existing copy fetched from MongoDB.  Documents are
modelled by the fields the loop reads (`id`, `updatedAt`, `_deleted` and the
configured user-id field) plus an opaque payload; the MongoDB collection is
an external collaborator, modelled as a record of possibly-throwing
operations over an abstract store state, with a concrete list-based
instance. -/

/-- A document as seen by the reconciliation loop.  `id` is `none` when the
JavaScript object lacks the property, `userId` is the value of the
configured user-id field. -/
structure SDoc where
  id : Option String
  updatedAt : Int
  deleted : Bool
  userId : Option String
  payload : String
deriving DecidableEq, Repr

/-- The MongoDB collection operations used by `processChanges`; each may
throw (`Except.error`). -/
structure DbOps (σ : Type) where
  findOne : σ → Option String → Except String (Option SDoc)
  insertOne : σ → SDoc → Except String σ
  replaceOne : σ → Option String → SDoc → Except String σ
  deleteOne : σ → Option String → Except String σ

/-- Replace the first document matching the id (MongoDB `replaceOne`). -/
def replaceFirst (st : List SDoc) (i : Option String) (nd : SDoc) : List SDoc :=
  match st with
  | [] => []
  | d :: ds => if d.id = i then nd :: ds else d :: replaceFirst ds i nd

/-- Remove the first document matching the id (MongoDB `deleteOne`). -/
def removeFirst (st : List SDoc) (i : Option String) : List SDoc :=
  match st with
  | [] => []
  | d :: ds => if d.id = i then ds else d :: removeFirst ds i

/-- A concrete, never-throwing collection backed by a list of documents. -/
def listDb : DbOps (List SDoc) where
  findOne st i := Except.ok (st.find? (fun d => d.id == i))
  insertOne st d := Except.ok (st ++ [d])
  replaceOne st i nd := Except.ok (replaceFirst st i nd)
  deleteOne st i := Except.ok (removeFirst st i)

/-- A collection validator: `validator(change, ctx)` in the source, which
may reject (`false`) or throw. -/
def Validator : Type := SDoc → String → Except String Bool

/-- A collection conflict handler: `conflictHandler(existingDoc, change,
ctx)`, returning a resolved document or nothing, possibly throwing. -/
def ConflictHandler : Type := SDoc → SDoc → String → Except String (Option SDoc)

/-- The running tally built by `processChanges`. -/
structure SyncResults where
  processed : Nat
  conflicts : Nat
  errors : Nat
  details : List (Option String × String)
  serverChanges : List SDoc
deriving DecidableEq, Repr

/-- The tally all runs start from. -/
def emptyResults : SyncResults :=
  SyncResults.mk 0 0 0 [] []

/-- Record a per-document error (the `results.errors++` plus
`results.details.push` pattern of the source). -/
def recErr (r : SyncResults) (i : Option String) (msg : String) : SyncResults :=
  { r with errors := r.errors + 1, details := r.details ++ [(i, msg)] }

/-- Increment the processed counter. -/
def incProcessed (r : SyncResults) : SyncResults :=
  { r with processed := r.processed + 1 }

/-- Increment the conflict counter. -/
def incConflicts (r : SyncResults) : SyncResults :=
  { r with conflicts := r.conflicts + 1 }

/-- Append to `results.serverChanges`. -/
def pushServer (r : SyncResults) (d : SDoc) : SyncResults :=
  { r with serverChanges := r.serverChanges ++ [d] }

/-- Run the optional validator (`validator && !await validator(...)`): with
no validator configured the document passes. -/
def runValidator (v : Option Validator) (c : SDoc) (uid : String) :
    Except String Bool :=
  match v with
  | some f => f c uid
  | none => Except.ok true

/-- JavaScript truthiness of the `change[userIdField]` read: an absent
field and the empty string are falsy, so the ownership check is skipped for
them. -/
def truthyId (i : Option String) : Bool :=
  match i with
  | none => false
  | some s => s ≠ ""

/-- Truthiness of `change.id` (`if (!change.id)`). -/
def falsyDocId (i : Option String) : Bool :=
  match i with
  | none => true
  | some s => s = ""

/-- Resolution of one already-validated, already-stamped change `c'`
against the store: `findOne`, then insert when absent, the conflict branch
when the server copy is strictly newer, and the accept branch (delete or
replace) otherwise; `fid` is the `uuidv4()` value consumed if the insert
branch has to assign an id.  The source mutates `results` in place, so a
throw is caught with every tally mutation made before it already applied —
in particular `results.conflicts++` runs before the awaited conflict
handler and its `replaceOne`.  A thrown error therefore carries the tally
as of the throw. -/
def resolvePhase {σ : Type} (db : DbOps σ) (handler : Option ConflictHandler)
    (uid : String) (fid : String) (st : σ) (r : SyncResults) (c' : SDoc) :
    Except (String × SyncResults) (σ × SyncResults) :=
  match db.findOne st c'.id with
  | Except.error m => Except.error (m, r)
  | Except.ok none =>
    if c'.deleted then Except.ok (st, incProcessed r)
    else
      let c'' := if falsyDocId c'.id then { c' with id := some fid } else c'
      match db.insertOne st c'' with
      | Except.error m => Except.error (m, r)
      | Except.ok st' => Except.ok (st', incProcessed r)
  | Except.ok (some ex) =>
    if ex.updatedAt > c'.updatedAt then
      let r' := incConflicts r
      match handler with
      | some h =>
        match h ex c' uid with
        | Except.error m => Except.error (m, r')
        | Except.ok (some rd) =>
          match db.replaceOne st c'.id rd with
          | Except.error m => Except.error (m, r')
          | Except.ok st' =>
            Except.ok (st', pushServer (incProcessed r') rd)
        | Except.ok none => Except.ok (st, pushServer r' ex)
      | none => Except.ok (st, pushServer r' ex)
    else if c'.deleted then
      match db.deleteOne st c'.id with
      | Except.error m => Except.error (m, r)
      | Except.ok st' => Except.ok (st', incProcessed r)
    else
      match db.replaceOne st c'.id c' with
      | Except.error m => Except.error (m, r)
      | Except.ok st' => Except.ok (st', incProcessed r)

/-- The body of one iteration of the `for (const change of changes)` loop,
before the surrounding `try/catch`.  Mirrors the source order: validation,
ownership, stamping `change[userIdField] = userId`, then resolution; a
thrown error carries the in-place-mutated tally as of the throw. -/
def processOneBody {σ : Type} (db : DbOps σ) (validator : Option Validator)
    (handler : Option ConflictHandler) (uid : String) (fid : String)
    (st : σ) (r : SyncResults) (c : SDoc) :
    Except (String × SyncResults) (σ × SyncResults) :=
  match runValidator validator c uid with
  | Except.error m => Except.error (m, r)
  | Except.ok vok =>
    if !vok then Except.ok (st, recErr r c.id "Validação falhou")
    else if truthyId c.userId ∧ c.userId ≠ some uid then
      Except.ok (st, recErr r c.id "Documento não pertence ao usuário")
    else
      resolvePhase db handler uid fid st r { c with userId := some uid }

/-- One loop iteration including the `catch`: a thrown error leaves the
store untouched, and the error is recorded on top of the tally carried by
the throw (the tally as mutated in place before the error, e.g. with the
conflict already counted when the conflict handler threw). -/
def processOne {σ : Type} (db : DbOps σ) (validator : Option Validator)
    (handler : Option ConflictHandler) (uid : String) (fid : String)
    (st : σ) (r : SyncResults) (c : SDoc) : σ × SyncResults :=
  match processOneBody db validator handler uid fid st r c with
  | Except.ok res => res
  | Except.error e => (st, recErr e.2 c.id e.1)

/-- The whole loop of `processChanges`, threading the store and the tally;
`uuid n` supplies the n-th `uuidv4()` value. -/
def processChangesAux {σ : Type} (db : DbOps σ) (validator : Option Validator)
    (handler : Option ConflictHandler) (uid : String) (uuid : Nat → String) :
    σ → SyncResults → Nat → List SDoc → σ × SyncResults
  | st, r, _, [] => (st, r)
  | st, r, idx, c :: cs =>
    let res := processOne db validator handler uid (uuid idx) st r c
    processChangesAux db validator handler uid uuid res.1 res.2 (idx + 1) cs

/-- `processChanges` for a configured collection. -/
def processChanges {σ : Type} (db : DbOps σ) (validator : Option Validator)
    (handler : Option ConflictHandler) (uid : String) (uuid : Nat → String)
    (st : σ) (changes : List SDoc) : σ × SyncResults :=
  processChangesAux db validator handler uid uuid st emptyResults 0 changes

/-- A tombstone write: `$set: _deleted: true, updatedAt: now`. -/
def tombstone (d : SDoc) (now : Int) : SDoc :=
  { d with deleted := true, updatedAt := now }

/-- One `updateOne` of the bulk write of `markDocumentsAsDeleted`: update
the first document matching both the id and the user-id filter.  Returns
the updated store and whether a document matched. -/
def updateOneDeleted (st : List SDoc) (i : String) (uid : String) (now : Int) :
    List SDoc × Bool :=
  match st with
  | [] => ([], false)
  | d :: ds =>
    if d.id = some i ∧ d.userId = some uid then (tombstone d now :: ds, true)
    else
      let res := updateOneDeleted ds i uid now
      (d :: res.1, res.2)

/-- `markDocumentsAsDeleted(collectionName, documentIds, userId)`: a bulk of
`updateOne` soft deletes; the returned count models `modifiedCount` as the
number of ids that matched a document. -/
def markDocumentsAsDeleted (st : List SDoc) (ids : List String) (uid : String)
    (now : Int) : List SDoc × Nat :=
  match ids with
  | [] => (st, 0)
  | i :: rest =>
    let res := updateOneDeleted st i uid now
    let res' := markDocumentsAsDeleted res.1 rest uid now
    (res'.1, (if res.2 then 1 else 0) + res'.2)

/-! ## Admission monitor (security middleware, `SecurityMiddleware`)

The timing-anomaly detector keeps a per-IP history of response times, a
request counter, the last request time and an `intervals` field.  Response
times and thresholds are modelled as rationals; the IEEE-754 comparisons
involved are exact on the values reached here. -/

/-- The per-IP entry of `responseTimesHistory`.  The source declares the
optional `intervals` array but no statement ever assigns or pushes to it. -/
structure IpHistory where
  times : List Rat
  intervals : Option (List Rat)
  requestCount : Nat
  lastRequestTime : Int
deriving DecidableEq, Repr

/-- The monitor state: the history map plus the suspicious-IP set. -/
structure SecurityState where
  responseTimesHistory : List (String × IpHistory)
  suspiciousIPs : List String
deriving DecidableEq, Repr

/-- The state before any request. -/
def initialSecurityState : SecurityState :=
  SecurityState.mk [] []

/-- Write-back of the per-IP history entry. -/
def setHist (st : SecurityState) (ip : String) (h : IpHistory) : SecurityState :=
  { st with responseTimesHistory := setKey st.responseTimesHistory ip h }

/-- `suspiciousIPs.add(ip)` (set semantics). -/
def addSusp (st : SecurityState) (ip : String) : SecurityState :=
  if ip ∈ st.suspiciousIPs then st
  else { st with suspiciousIPs := st.suspiciousIPs ++ [ip] }

/-- Ascending stable insertion modelling `sort((a, b) => a - b)`. -/
def insertAsc (x : Rat) : List Rat → List Rat
  | [] => [x]
  | y :: ys => if x ≤ y then x :: y :: ys else y :: insertAsc x ys

/-- Ascending sort of the response-time samples. -/
def sortRats : List Rat → List Rat
  | [] => []
  | x :: xs => insertAsc x (sortRats xs)

/-- `detectStatisticalAnomaly`: IQR outlier test over the response times;
`Math.floor(length * 0.25)` and `Math.floor(length * 0.75)` are exact in
doubles, and the final `outliers.length / responseTimes.length > 0.2`
comparison between a small rational and the double nearest 0.2 agrees with
the exact rational comparison. -/
def detectStatisticalAnomaly (responseTimes : List Rat) : Bool :=
  let sorted := sortRats responseTimes
  let n := sorted.length
  let q1 := sorted.getD (n * 25 / 100) 0
  let q3 := sorted.getD (n * 75 / 100) 0
  let iqr := q3 - q1
  let lowerBound := q1 - 3 / 2 * iqr
  let upperBound := q3 + 3 / 2 * iqr
  let outliers := responseTimes.filter (fun t => t < lowerBound ∨ t > upperBound)
  ((outliers.length : Rat) / (responseTimes.length : Rat) > 1 / 5 : Bool)

/-- The coefficient-of-variation test `(stdDev / avg) < 0.1` of
`detectPreciseIntervals`.  For positive mean it is stated without the square
root as `100 * variance < avg ^ 2`; for zero mean the JavaScript division
yields `NaN` or `Infinity` and the comparison is false; for negative mean
the quotient is nonpositive and the comparison is true. -/
def cvBelowTenth (intervals : List Rat) : Bool :=
  let n : Rat := (intervals.length : Rat)
  let avg := intervals.sum / n
  let variance := (intervals.map (fun i => (i - avg) ^ 2)).sum / n
  if avg > 0 then (100 * variance < avg ^ 2 : Bool)
  else if avg < 0 then true
  else false

/-- `detectPreciseIntervals(ip)`: false unless the recorded `intervals`
window holds at least 5 samples, otherwise the coefficient-of-variation
test. -/
def detectPreciseIntervals (st : SecurityState) (ip : String) : Bool :=
  match lk st.responseTimesHistory ip with
  | none => false
  | some h =>
    match h.intervals with
    | none => false
    | some ivs => if ivs.length < 5 then false else cvBelowTenth ivs

/-- The history-entry update performed by `detectTimingAnomaly`: create the
entry on first sight, compute `timeSinceLastRequest` (the source computes it
but never stores it anywhere — in particular never into `intervals`),
refresh `lastRequestTime`, push the response time into the rolling window of
100 and bump the request counter. -/
def nextEntry (st : SecurityState) (ip : String) (responseTimeMs : Rat)
    (now : Int) : IpHistory :=
  let h0 := (lk st.responseTimesHistory ip).getD (IpHistory.mk [] none 0 now)
  let _timeSinceLastRequest := now - h0.lastRequestTime
  let h1 := { h0 with lastRequestTime := now }
  let times1 := h1.times ++ [responseTimeMs]
  let times2 := if times1.length > 100 then times1.drop 1 else times1
  { h1 with times := times2, requestCount := h1.requestCount + 1 }

/-- `detectTimingAnomaly(ip, responseTimeMs)`: update the history entry,
then flag the IP when either detector fires. -/
def detectTimingAnomaly (st : SecurityState) (ip : String)
    (responseTimeMs : Rat) (now : Int) : SecurityState :=
  let h2 := nextEntry st ip responseTimeMs now
  let st1 := setHist st ip h2
  let st2 :=
    if h2.requestCount > 20 ∧ detectPreciseIntervals st1 ip then addSusp st1 ip
    else st1
  if h2.times.length ≥ 10 ∧ detectStatisticalAnomaly h2.times then addSusp st2 ip
  else st2

/-- A sequence of monitored requests: `(ip, responseTimeMs, now)` triples
folded through `detectTimingAnomaly`. -/
def runMonitor (calls : List (String × Rat × Int)) : SecurityState :=
  calls.foldl (fun st c => detectTimingAnomaly st c.1 c.2.1 c.2.2)
    initialSecurityState

/-- A trace of `n` requests from one IP with perfectly uniform spacing
`gap` and constant response time `rt`. -/
def uniformTrace (ip : String) (rt : Rat) (gap : Int) (n : Nat) :
    List (String × Rat × Int) :=
  (List.range n).map (fun k => (ip, rt, gap * (k : Int)))

/-- The recorded inter-arrival window of an IP, `none` when the IP has no
history entry or the entry's `intervals` field was never assigned. -/
def intervalsAt (st : SecurityState) (ip : String) : Option (List Rat) :=
  match lk st.responseTimesHistory ip with
  | some h => h.intervals
  | none => none

/-- The per-IP histories hold only constant response-time windows of value
`rt`, no `intervals` window, and nobody is flagged. -/
def ConstMonitorInv (rt : Rat) (st : SecurityState) : Prop :=
  st.suspiciousIPs = [] ∧
  (∀ ip, intervalsAt st ip = none) ∧
  (∀ ip h, lk st.responseTimesHistory ip = some h →
    ∃ m, h.times = List.replicate m rt)

/-! ## Lemmas and claim theorems -/

theorem idAbsent_filter (q : List SyncAttempt) (i : String) (p : SyncAttempt → Bool)
    (h : idAbsent q i) : idAbsent (q.filter p) i := by
  intro x hx
  exact h x (List.mem_of_mem_filter hx)

theorem idAbsent_map_update (cur : List SyncAttempt) (aid : String) (nr : Nat)
    (msg : String) (i : String) (h : idAbsent cur i) :
    idAbsent (cur.map (fun x =>
      if x.id = aid then { x with retries := nr, lastError := some msg } else x)) i := by
  intro x hx
  rcases List.mem_map.mp hx with ⟨y, hy, hxy⟩
  subst hxy
  by_cases hid : y.id = aid
  · rw [if_pos hid]; exact h y hy
  · rw [if_neg hid]; exact h y hy

theorem idAbsent_retryStep (deliver : SyncAttempt → Option String)
    (cur : List SyncAttempt) (a : SyncAttempt) (i : String)
    (h : idAbsent cur i) : idAbsent (retryStep deliver cur a) i := by
  unfold retryStep
  cases deliver a with
  | none => exact idAbsent_filter _ _ _ h
  | some msg =>
    simp only
    by_cases hnr : a.retries + 1 > 10
    · simp only [hnr, if_pos]
      exact idAbsent_filter _ _ _ (idAbsent_map_update cur a.id _ msg i h)
    · simp only [hnr, if_neg]
      exact idAbsent_map_update cur a.id _ msg i h

theorem idAbsent_after_drop (deliver : SyncAttempt → Option String)
    (cur : List SyncAttempt) (a : SyncAttempt) (msg : String)
    (hfail : deliver a = some msg) (hceil : a.retries ≥ 10) :
    idAbsent (retryStep deliver cur a) a.id := by
  unfold retryStep
  rw [hfail]
  simp only
  have hnr : a.retries + 1 > 10 := Nat.lt_of_lt_of_le (by omega) (le_refl _)
  simp only [hnr, if_pos]
  intro x hx
  have := List.mem_filter.mp hx
  simpa using this.2

theorem idAbsent_foldl (deliver : SyncAttempt → Option String) (i : String) :
    ∀ (l : List SyncAttempt) (cur : List SyncAttempt),
      idAbsent cur i → idAbsent (l.foldl (retryStep deliver) cur) i := by
  intro l
  induction l with
  | nil => intro cur h; exact h
  | cons b bs ih =>
    intro cur h
    exact ih _ (idAbsent_retryStep deliver cur b i h)

theorem drop_then_absent (deliver : SyncAttempt → Option String)
    (a : SyncAttempt) (msg : String)
    (hfail : deliver a = some msg) (hceil : a.retries ≥ 10) :
    ∀ (pre post : List SyncAttempt) (cur : List SyncAttempt),
      idAbsent ((pre ++ a :: post).foldl (retryStep deliver) cur) a.id := by
  intro pre
  induction pre with
  | nil =>
    intro post cur
    simp only [List.nil_append, List.foldl_cons]
    exact idAbsent_foldl deliver a.id post _ (idAbsent_after_drop deliver cur a msg hfail hceil)
  | cons b bs ih =>
    intro post cur
    simp only [List.cons_append, List.foldl_cons]
    exact ih post _

/-- C3: the retry pass is claimed to select operations oldest-timestamp
first and, secondarily, fewest-retries first.  On two pending attempts with
the same timestamp, the comparator
`(a.timestamp - b.timestamp) - (a.retries * 10000 - b.retries * 10000)`
sorts the attempt with MORE retries first, contradicting the claim (and the
source's own comment "Priorizar tentativas mais antigas com menos
retries"). -/
theorem retry_sort_prefers_more_retries :
    (⟨"a", "todos", SyncOp.push, "p", 1000, 0, none⟩ : SyncAttempt).timestamp =
        (⟨"b", "todos", SyncOp.push, "p", 1000, 1, none⟩ : SyncAttempt).timestamp ∧
      (⟨"a", "todos", SyncOp.push, "p", 1000, 0, none⟩ : SyncAttempt).retries <
        (⟨"b", "todos", SyncOp.push, "p", 1000, 1, none⟩ : SyncAttempt).retries ∧
      sortAttempts
          [⟨"a", "todos", SyncOp.push, "p", 1000, 0, none⟩,
           ⟨"b", "todos", SyncOp.push, "p", 1000, 1, none⟩] =
        [⟨"b", "todos", SyncOp.push, "p", 1000, 1, none⟩,
         ⟨"a", "todos", SyncOp.push, "p", 1000, 0, none⟩] := by
  refine ⟨rfl, by decide, ?_⟩
  decide

/-- C7 counterexample: dropping an operation that exceeded the retry
ceiling is claimed to be surfaced to the caller via a side channel rather
than silently discarded.  In fact a pass in which the operation fails an
11th time and is dropped produces exactly the same queue and the same
emissions as a pass in which the delivery succeeds: the drop is
observationally indistinguishable from success, so no failure signal
reaches the caller. -/
theorem retry_drop_is_silent :
    processRetries true (fun _ => some "network error")
        [⟨"op1", "todos", SyncOp.push, "p", 500, 10, none⟩] =
      processRetries true (fun _ => none)
        [⟨"op1", "todos", SyncOp.push, "p", 500, 10, none⟩] := by
  decide

/-- C7 amended: a pending operation whose delivery fails with its retry
count already at the ceiling (10, so the failed attempt is its 11th) is
removed from the queue by the pass that processed it, and no operation with
its id remains afterwards — it is never attempted a 12th time.  The drop
itself is silent (see the counterexample). -/
theorem retry_ceiling_drops_operation (deliver : SyncAttempt → Option String)
    (q : List SyncAttempt) (a : SyncAttempt) (msg : String)
    (hfail : deliver a = some msg) (hceil : a.retries ≥ 10)
    (hmem : a ∈ (sortAttempts q).take 5) :
    idAbsent (processRetries true deliver q).1 a.id := by
  unfold processRetries
  have hq : (!true ∨ q.isEmpty) = False := by
    cases q with
    | nil => simp [sortAttempts] at hmem
    | cons x xs => simp [List.isEmpty]
  rw [if_neg]
  · show idAbsent (((sortAttempts q).take 5).foldl (retryStep deliver) q) a.id
    rcases List.append_of_mem hmem with ⟨pre, post, hsplit⟩
    rw [hsplit]
    exact drop_then_absent deliver a msg hfail hceil pre post q
  · rw [hq]
    exact id

/-- C7 witness: the amended theorem applied to a concrete queue holding one
operation at the ceiling whose delivery fails. -/
theorem retry_ceiling_drops_operation_witness :
    idAbsent
      (processRetries true (fun _ => some "network error")
        [⟨"op9", "todos", SyncOp.pull, "p", 500, 10, none⟩]).1 "op9" :=
  retry_ceiling_drops_operation (fun _ => some "network error")
    [⟨"op9", "todos", SyncOp.pull, "p", 500, 10, none⟩]
    ⟨"op9", "todos", SyncOp.pull, "p", 500, 10, none⟩ "network error"
    rfl (by decide) (by decide)


theorem lk_setKey {α : Type} (l : List (String × α)) (k : String) (v : α)
    (k' : String) :
    lk (setKey l k v) k' = if k = k' then some v else lk l k' := by
  induction l with
  | nil =>
    by_cases h : k = k' <;> simp [setKey, lk, h]
  | cons p rest ih =>
    unfold setKey
    by_cases hp : p.1 = k
    · rw [if_pos hp]
      show (if k = k' then some v else lk rest k') =
        if k = k' then some v else lk (p :: rest) k'
      by_cases h : k = k'
      · rw [if_pos h, if_pos h]
      · rw [if_neg h, if_neg h]
        show _ = if p.1 = k' then some p.2 else lk rest k'
        rw [if_neg (show ¬p.1 = k' by rw [hp]; exact h)]
    · rw [if_neg hp]
      show (if p.1 = k' then some p.2 else lk (setKey rest k v) k') =
        if k = k' then some v else lk (p :: rest) k'
      by_cases hpk : p.1 = k'
      · rw [if_pos hpk,
          if_neg (show ¬k = k' by intro he; exact hp (hpk.trans he.symm))]
        show _ = if p.1 = k' then some p.2 else lk rest k'
        rw [if_pos hpk]
      · rw [if_neg hpk, ih]
        by_cases h : k = k'
        · rw [if_pos h, if_pos h]
        · rw [if_neg h, if_neg h]
          show _ = if p.1 = k' then some p.2 else lk rest k'
          rw [if_neg hpk]

theorem hist_addSusp (st : SecurityState) (ip : String) :
    (addSusp st ip).responseTimesHistory = st.responseTimesHistory := by
  unfold addSusp
  split <;> rfl

theorem hist_detectTimingAnomaly (st : SecurityState) (ip : String)
    (rt : Rat) (now : Int) :
    (detectTimingAnomaly st ip rt now).responseTimesHistory =
      setKey st.responseTimesHistory ip (nextEntry st ip rt now) := by
  unfold detectTimingAnomaly
  simp only
  split
  · rw [hist_addSusp]
    split
    · rw [hist_addSusp]; rfl
    · rfl
  · split
    · rw [hist_addSusp]; rfl
    · rfl

theorem nextEntry_intervals (st : SecurityState) (ip : String) (rt : Rat)
    (now : Int) :
    (nextEntry st ip rt now).intervals = intervalsAt st ip := by
  unfold nextEntry intervalsAt
  cases lk st.responseTimesHistory ip <;> rfl

theorem intervalsAt_detectTimingAnomaly (st : SecurityState)
    (ip ip' : String) (rt : Rat) (now : Int)
    (h : ∀ j, intervalsAt st j = none) :
    intervalsAt (detectTimingAnomaly st ip' rt now) ip = none := by
  unfold intervalsAt
  rw [hist_detectTimingAnomaly, lk_setKey]
  by_cases hip : ip' = ip
  · rw [if_pos hip]
    show (nextEntry st ip' rt now).intervals = none
    rw [nextEntry_intervals]
    exact h ip'
  · rw [if_neg hip]
    have := h ip
    unfold intervalsAt at this
    exact this

theorem intervalsAt_runMonitor (calls : List (String × Rat × Int))
    (ip : String) : intervalsAt (runMonitor calls) ip = none := by
  unfold runMonitor
  have : ∀ (st : SecurityState), (∀ j, intervalsAt st j = none) →
      ∀ j, intervalsAt
        (calls.foldl (fun st c => detectTimingAnomaly st c.1 c.2.1 c.2.2) st) j
          = none := by
    induction calls with
    | nil => intro st h j; exact h j
    | cons c cs ih =>
      intro st h j
      exact ih _ (fun j' => intervalsAt_detectTimingAnomaly st j' c.1 c.2.1 c.2.2 h) j
  refine this initialSecurityState (fun j => ?_) ip
  rfl

theorem detectPreciseIntervals_runMonitor_false
    (calls : List (String × Rat × Int)) (ip : String) :
    detectPreciseIntervals (runMonitor calls) ip = false := by
  unfold detectPreciseIntervals
  have h := intervalsAt_runMonitor calls ip
  unfold intervalsAt at h
  cases hh : lk (runMonitor calls).responseTimesHistory ip with
  | none => rfl
  | some e =>
    rw [hh] at h
    have h' : e.intervals = none := h
    show (match e.intervals with
      | none => false
      | some ivs => if ivs.length < 5 then false else cvBelowTenth ivs) = false
    rw [h']

theorem insertAsc_replicate (m : Nat) (x : Rat) :
    insertAsc x (List.replicate m x) = List.replicate (m + 1) x := by
  induction m with
  | zero => rfl
  | succ n ih =>
    rw [List.replicate_succ]
    unfold insertAsc
    rw [if_pos (le_refl x)]
    rfl

theorem sortRats_replicate (m : Nat) (x : Rat) :
    sortRats (List.replicate m x) = List.replicate m x := by
  induction m with
  | zero => rfl
  | succ n ih =>
    rw [List.replicate_succ]
    unfold sortRats
    rw [ih, insertAsc_replicate]
    rfl

theorem getD_replicate_self (m i : Nat) (x : Rat) (h : i < m) :
    (List.replicate m x).getD i 0 = x := by
  induction m generalizing i with
  | zero => omega
  | succ n ih =>
    rw [List.replicate_succ]
    cases i with
    | zero => rfl
    | succ j =>
      show (List.replicate n x).getD j 0 = x
      exact ih j (by omega)

theorem filter_replicate_false (m : Nat) (x : Rat) (p : Rat → Bool)
    (hp : p x = false) : (List.replicate m x).filter p = [] := by
  induction m with
  | zero => rfl
  | succ n ih =>
    rw [List.replicate_succ, List.filter_cons, hp]
    simpa using ih

theorem statAnomaly_replicate (m : Nat) (x : Rat) :
    detectStatisticalAnomaly (List.replicate m x) = false := by
  unfold detectStatisticalAnomaly
  simp only [sortRats_replicate, List.length_replicate]
  rcases Nat.eq_zero_or_pos m with hm | hm
  · subst hm
    simp only [List.replicate_zero, List.filter_nil, List.length_nil,
      Nat.cast_zero, zero_div]
    rw [decide_eq_false_iff_not]
    norm_num
  · rw [getD_replicate_self m (m * 25 / 100) x (by omega),
      getD_replicate_self m (m * 75 / 100) x (by omega)]
    rw [filter_replicate_false m x _ (by
      have h1 : ¬(x < x - 3 / 2 * (x - x)) := by
        rw [sub_self, mul_zero, sub_zero]
        exact lt_irrefl x
      have h2 : ¬(x > x + 3 / 2 * (x - x)) := by
        rw [sub_self, mul_zero, add_zero]
        exact lt_irrefl x
      simp [h1, h2])]
    simp only [List.length_nil, Nat.cast_zero, zero_div]
    rw [decide_eq_false_iff_not]
    norm_num

theorem nextEntry_times_replicate (st : SecurityState) (ip : String)
    (rt : Rat) (now : Int)
    (h : ∀ e, lk st.responseTimesHistory ip = some e →
      ∃ m, e.times = List.replicate m rt) :
    ∃ m, (nextEntry st ip rt now).times = List.replicate m rt := by
  unfold nextEntry
  cases hl : lk st.responseTimesHistory ip with
  | none =>
    simp only [hl, Option.getD_none]
    refine ⟨1, ?_⟩
    rw [if_neg (by simp)]
    rfl
  | some e =>
    rcases h e hl with ⟨m, hm⟩
    simp only [hl, Option.getD_some]
    rw [show ({ e with lastRequestTime := now } : IpHistory).times = e.times from rfl,
      hm, ← List.replicate_succ']
    by_cases hlen : (List.replicate (m + 1) rt).length > 100
    · rw [if_pos hlen]
      exact ⟨m, by cases m <;> rfl⟩
    · rw [if_neg hlen]
      exact ⟨m + 1, rfl⟩

theorem susp_setHist (st : SecurityState) (ip : String) (e : IpHistory) :
    (setHist st ip e).suspiciousIPs = st.suspiciousIPs := rfl

theorem detectPreciseIntervals_setHist_nextEntry (st : SecurityState)
    (ip : String) (rt : Rat) (now : Int)
    (hiv : intervalsAt st ip = none) :
    detectPreciseIntervals (setHist st ip (nextEntry st ip rt now)) ip = false := by
  unfold detectPreciseIntervals
  show (match lk (setKey st.responseTimesHistory ip (nextEntry st ip rt now)) ip with
    | none => false
    | some h =>
      match h.intervals with
      | none => false
      | some ivs => if ivs.length < 5 then false else cvBelowTenth ivs) = false
  rw [lk_setKey, if_pos rfl]
  show (match (nextEntry st ip rt now).intervals with
    | none => false
    | some ivs => if ivs.length < 5 then false else cvBelowTenth ivs) = false
  rw [nextEntry_intervals, hiv]

theorem constInv_detectTimingAnomaly (rt : Rat) (st : SecurityState)
    (ip : String) (now : Int) (hinv : ConstMonitorInv rt st) :
    ConstMonitorInv rt (detectTimingAnomaly st ip rt now) := by
  rcases hinv with ⟨hsusp, hiv, htimes⟩
  have hdet : detectTimingAnomaly st ip rt now = setHist st ip (nextEntry st ip rt now) := by
    unfold detectTimingAnomaly
    simp only
    rw [if_neg, if_neg]
    · intro hc
      rcases hc with ⟨-, hc2⟩
      rw [detectPreciseIntervals_setHist_nextEntry st ip rt now (hiv ip)] at hc2
      exact Bool.false_ne_true hc2
    · intro hc
      rcases hc with ⟨-, hc2⟩
      rcases nextEntry_times_replicate st ip rt now (fun e he => htimes ip e he) with ⟨m, hm⟩
      rw [hm, statAnomaly_replicate] at hc2
      exact Bool.false_ne_true hc2
  refine ⟨?_, ?_, ?_⟩
  · rw [hdet, susp_setHist]
    exact hsusp
  · intro j
    exact intervalsAt_detectTimingAnomaly st j ip rt now hiv
  · intro j e hj
    rw [hdet] at hj
    have hj' : lk (setKey st.responseTimesHistory ip (nextEntry st ip rt now)) j = some e := hj
    rw [lk_setKey] at hj'
    by_cases hij : ip = j
    · rw [if_pos hij] at hj'
      have he : e = nextEntry st ip rt now := by
        injection hj' with h
        exact h.symm
      subst he
      exact nextEntry_times_replicate st ip rt now (fun e' he' => htimes ip e' he')
    · rw [if_neg hij] at hj'
      exact htimes j e hj'

theorem constInv_runMonitor (rt : Rat) (calls : List (String × Rat × Int))
    (hall : ∀ c ∈ calls, c.2.1 = rt) : ConstMonitorInv rt (runMonitor calls) := by
  unfold runMonitor
  have hinit : ConstMonitorInv rt initialSecurityState := by
    refine ⟨rfl, fun ip => rfl, fun ip e he => ?_⟩
    simp [lk, initialSecurityState] at he
  have hstep : ∀ (l : List (String × Rat × Int)) (st : SecurityState),
      (∀ c ∈ l, c.2.1 = rt) → ConstMonitorInv rt st →
      ConstMonitorInv rt
        (l.foldl (fun st c => detectTimingAnomaly st c.1 c.2.1 c.2.2) st) := by
    intro l
    induction l with
    | nil => intro st _ h; exact h
    | cons c cs ih =>
      intro st hall' h
      simp only [List.foldl_cons]
      refine ih _ (fun c' hc' => hall' c' (List.mem_cons_of_mem c hc')) ?_
      rw [hall' c (List.mem_cons_self c cs)]
      exact constInv_detectTimingAnomaly rt st c.1 c.2.2 h
  exact hstep calls initialSecurityState hall hinit

/-- C9: the spec claims an actor whose inter-arrival intervals form a
rolling window of at least 5 samples with coefficient of variation below
0.1 is flagged as suspicious.  In the source, `detectTimingAnomaly`
computes `timeSinceLastRequest` but never stores it into the
`intervals` window, so `detectPreciseIntervals` can never see 5 samples and
returns false after every possible trace of requests; in particular an
actor issuing 25 requests with perfectly uniform spacing (coefficient of
variation 0) and constant response times is never flagged. -/
theorem uniform_interarrival_actor_never_flagged :
    (∀ (calls : List (String × Rat × Int)) (ip : String),
        detectPreciseIntervals (runMonitor calls) ip = false) ∧
      (runMonitor (uniformTrace "1.2.3.4" 50 1000 25)).suspiciousIPs = [] := by
  constructor
  · exact detectPreciseIntervals_runMonitor_false
  · have h := constInv_runMonitor 50 (uniformTrace "1.2.3.4" 50 1000 25) ?_
    · exact h.1
    · intro c hc
      unfold uniformTrace at hc
      rcases List.mem_map.mp hc with ⟨k, -, hk⟩
      rw [← hk]

theorem processOneBody_resolves {σ : Type} (db : DbOps σ)
    (validator : Option Validator) (handler : Option ConflictHandler)
    (uid fid : String) (st : σ) (r : SyncResults) (c : SDoc)
    (hv : runValidator validator c uid = Except.ok true)
    (how : ¬(truthyId c.userId ∧ c.userId ≠ some uid)) :
    processOneBody db validator handler uid fid st r c =
      resolvePhase db handler uid fid st r { c with userId := some uid } := by
  simp only [processOneBody, hv, Bool.not_true, Bool.false_eq_true, if_false,
    if_neg how]

theorem processOneBody_validation_fails {σ : Type} (db : DbOps σ)
    (validator : Option Validator) (handler : Option ConflictHandler)
    (uid fid : String) (st : σ) (r : SyncResults) (c : SDoc) (v : Validator)
    (hv : validator = some v) (hfalse : v c uid = Except.ok false) :
    processOneBody db validator handler uid fid st r c =
      Except.ok (st, recErr r c.id "Validação falhou") := by
  simp only [processOneBody, runValidator, hv, hfalse, Bool.not_false, if_true]

theorem processOneBody_ownership_fails {σ : Type} (db : DbOps σ)
    (validator : Option Validator) (handler : Option ConflictHandler)
    (uid fid : String) (st : σ) (r : SyncResults) (c : SDoc)
    (hv : runValidator validator c uid = Except.ok true)
    (hown : truthyId c.userId ∧ c.userId ≠ some uid) :
    processOneBody db validator handler uid fid st r c =
      Except.ok (st, recErr r c.id "Documento não pertence ao usuário") := by
  simp only [processOneBody, hv, Bool.not_true, Bool.false_eq_true, if_false,
    if_pos hown]

theorem processOne_of_body_ok {σ : Type} (db : DbOps σ)
    (validator : Option Validator) (handler : Option ConflictHandler)
    (uid fid : String) (st : σ) (r : SyncResults) (c : SDoc)
    (res : σ × SyncResults)
    (h : processOneBody db validator handler uid fid st r c = Except.ok res) :
    processOne db validator handler uid fid st r c = res := by
  unfold processOne
  rw [h]

theorem processOne_of_body_error {σ : Type} (db : DbOps σ)
    (validator : Option Validator) (handler : Option ConflictHandler)
    (uid fid : String) (st : σ) (r : SyncResults) (c : SDoc) (m : String)
    (r' : SyncResults)
    (h : processOneBody db validator handler uid fid st r c =
      Except.error (m, r')) :
    processOne db validator handler uid fid st r c = (st, recErr r' c.id m) := by
  unfold processOne
  rw [h]

theorem processChangesAux_cons {σ : Type} (db : DbOps σ)
    (validator : Option Validator) (handler : Option ConflictHandler)
    (uid : String) (uuid : Nat → String) (st : σ) (r : SyncResults)
    (idx : Nat) (c : SDoc) (cs : List SDoc) :
    processChangesAux db validator handler uid uuid st r idx (c :: cs) =
      processChangesAux db validator handler uid uuid
        (processOne db validator handler uid (uuid idx) st r c).1
        (processOne db validator handler uid (uuid idx) st r c).2
        (idx + 1) cs := rfl

theorem resolvePhase_accept_replace (handler : Option ConflictHandler)
    (uid fid : String) (st : List SDoc) (r : SyncResults) (c' ex : SDoc)
    (hfind : st.find? (fun d => d.id == c'.id) = some ex)
    (hle : ¬ex.updatedAt > c'.updatedAt) (hdel : c'.deleted = false) :
    resolvePhase listDb handler uid fid st r c' =
      Except.ok (replaceFirst st c'.id c', incProcessed r) := by
  simp only [resolvePhase, listDb, hfind, if_neg hle, hdel, Bool.false_eq_true,
    if_false]

theorem resolvePhase_accept_delete (handler : Option ConflictHandler)
    (uid fid : String) (st : List SDoc) (r : SyncResults) (c' ex : SDoc)
    (hfind : st.find? (fun d => d.id == c'.id) = some ex)
    (hle : ¬ex.updatedAt > c'.updatedAt) (hdel : c'.deleted = true) :
    resolvePhase listDb handler uid fid st r c' =
      Except.ok (removeFirst st c'.id, incProcessed r) := by
  simp only [resolvePhase, listDb, hfind, if_neg hle, hdel, if_true]

theorem resolvePhase_conflict_handler_throws (uid fid : String)
    (st : List SDoc) (r : SyncResults) (c' ex : SDoc) (h : ConflictHandler)
    (m : String)
    (hfind : st.find? (fun d => d.id == c'.id) = some ex)
    (hgt : ex.updatedAt > c'.updatedAt)
    (hh : h ex c' uid = Except.error m) :
    resolvePhase listDb (some h) uid fid st r c' =
      Except.error (m, incConflicts r) := by
  simp only [resolvePhase, listDb, hfind, if_pos hgt, hh]

theorem mem_replaceFirst (st : List SDoc) (i : Option String) (nd d : SDoc) :
    d ∈ replaceFirst st i nd → d ∈ st ∨ d = nd := by
  induction st with
  | nil => intro h; cases h
  | cons x xs ih =>
    intro h
    unfold replaceFirst at h
    by_cases hx : x.id = i
    · rw [if_pos hx] at h
      cases h with
      | head => exact Or.inr rfl
      | tail _ h => exact Or.inl (List.mem_cons_of_mem x h)
    · rw [if_neg hx] at h
      cases h with
      | head => exact Or.inl (List.mem_cons_self _ _)
      | tail _ h =>
        rcases ih h with h' | h'
        · exact Or.inl (List.mem_cons_of_mem x h')
        · exact Or.inr h' 

theorem replaceFirst_mem_new (st : List SDoc) (i : Option String) (nd ex : SDoc) :
    st.find? (fun d => d.id == i) = some ex → nd ∈ replaceFirst st i nd := by
  induction st with
  | nil => intro hfind; simp [List.find?] at hfind
  | cons x xs ih =>
    intro hfind
    unfold replaceFirst
    by_cases hx : x.id = i
    · rw [if_pos hx]
      exact List.mem_cons_self nd _
    · rw [if_neg hx]
      rw [List.find?_cons] at hfind
      have hb : (x.id == i) = false := beq_eq_false_iff_ne.mpr hx
      rw [hb] at hfind
      exact List.mem_cons_of_mem x (ih hfind)

theorem mem_removeFirst (st : List SDoc) (i : Option String) (d : SDoc) :
    d ∈ removeFirst st i → d ∈ st := by
  induction st with
  | nil => intro h; cases h
  | cons x xs ih =>
    intro h
    unfold removeFirst at h
    by_cases hx : x.id = i
    · rw [if_pos hx] at h
      exact List.mem_cons_of_mem x h
    · rw [if_neg hx] at h
      cases h with
      | head => exact List.mem_cons_self _ _
      | tail _ h => exact List.mem_cons_of_mem x (ih h)

theorem removeFirst_length (st : List SDoc) (i : Option String) (ex : SDoc) :
    st.find? (fun d => d.id == i) = some ex →
      (removeFirst st i).length + 1 = st.length := by
  induction st with
  | nil => intro hfind; simp [List.find?] at hfind
  | cons x xs ih =>
    intro hfind
    unfold removeFirst
    by_cases hx : x.id = i
    · rw [if_pos hx]
      rfl
    · rw [if_neg hx]
      rw [List.find?_cons] at hfind
      have hb : (x.id == i) = false := beq_eq_false_iff_ne.mpr hx
      rw [hb] at hfind
      show (removeFirst xs i).length + 1 + 1 = xs.length + 1
      rw [ih hfind]

theorem tombRel_refl (now : Int) :
    ∀ l : List SDoc, List.Forall₂ (fun d0 d => d = d0 ∨ d = tombstone d0 now) l l := by
  intro l
  induction l with
  | nil => exact List.Forall₂.nil
  | cons x xs ih => exact List.Forall₂.cons (Or.inl rfl) ih

theorem tombstone_idem (d : SDoc) (now : Int) :
    tombstone (tombstone d now) now = tombstone d now := rfl

theorem tombRel_trans (now : Int) :
    ∀ (a b c : List SDoc),
      List.Forall₂ (fun d0 d => d = d0 ∨ d = tombstone d0 now) a b →
      List.Forall₂ (fun d0 d => d = d0 ∨ d = tombstone d0 now) b c →
      List.Forall₂ (fun d0 d => d = d0 ∨ d = tombstone d0 now) a c := by
  intro a
  induction a with
  | nil =>
    intro b c hab hbc
    cases hab
    cases hbc
    exact List.Forall₂.nil
  | cons x xs ih =>
    intro b c hab hbc
    cases hab with
    | cons hxy hab' =>
      cases hbc with
      | cons hyz hbc' =>
        refine List.Forall₂.cons ?_ (ih _ _ hab' hbc')
        rcases hxy with h1 | h1 <;> rcases hyz with h2 | h2
        · exact Or.inl (h2.trans h1)
        · rw [h1] at h2
          exact Or.inr h2
        · rw [h2, h1]
          exact Or.inr rfl
        · rw [h2, h1, tombstone_idem]
          exact Or.inr rfl

theorem updateOneDeleted_forall2 (i uid : String) (now : Int) :
    ∀ st : List SDoc,
      List.Forall₂ (fun d0 d => d = d0 ∨ d = tombstone d0 now) st
        (updateOneDeleted st i uid now).1 := by
  intro st
  induction st with
  | nil => exact List.Forall₂.nil
  | cons x xs ih =>
    unfold updateOneDeleted
    by_cases hx : x.id = some i ∧ x.userId = some uid
    · rw [if_pos hx]
      exact List.Forall₂.cons (Or.inr rfl) (tombRel_refl now xs)
    · rw [if_neg hx]
      exact List.Forall₂.cons (Or.inl rfl) ih

theorem markDocumentsAsDeleted_forall2 (uid : String) (now : Int) :
    ∀ (ids : List String) (st : List SDoc),
      List.Forall₂ (fun d0 d => d = d0 ∨ d = tombstone d0 now) st
        (markDocumentsAsDeleted st ids uid now).1 := by
  intro ids
  induction ids with
  | nil => intro st; exact tombRel_refl now st
  | cons i rest ih =>
    intro st
    unfold markDocumentsAsDeleted
    exact tombRel_trans now _ _ _ (updateOneDeleted_forall2 i uid now st)
      (ih (updateOneDeleted st i uid now).1)

/-- C1 counterexample: the claim says reconciliation alone never physically
removes a document — an accepted client deletion is supposed to leave a
tombstone carrying the id.  Concretely, reconciling a client deletion with
`updatedAt 150 >= 100` against a store holding the document leaves the store
EMPTY: `processChanges` calls `deleteOne`, physically removing the copy. -/
theorem recon_hard_delete_cex :
    (processChanges listDb none none "u" (fun _ => "gen")
        [⟨some "1", 100, false, some "u", "p"⟩]
        [⟨some "1", 150, true, none, "p"⟩]).1 = [] := by
  decide

/-- C1 amended: when reconciliation accepts a client deletion (document
present, deletion not older than the server copy, validation and ownership
passing), the server copy is physically removed from the store
(`deleteOne`), shrinking it by one; soft-delete tombstones that retain the
document's id (with `updatedAt` set to the deletion time) are produced only
by the separate `markDocumentsAsDeleted` bulk API, which rewrites matched
documents in place and never drops one. -/
theorem recon_delete_removes_tombstone_only_in_markDeleted :
    (∀ (validator : Option Validator) (handler : Option ConflictHandler)
        (uid fid : String) (st : List SDoc) (r : SyncResults) (c ex : SDoc),
        runValidator validator c uid = Except.ok true →
        ¬(truthyId c.userId ∧ c.userId ≠ some uid) →
        st.find? (fun d => d.id == c.id) = some ex →
        ¬ex.updatedAt > c.updatedAt →
        c.deleted = true →
        processOne listDb validator handler uid fid st r c =
          (removeFirst st c.id, incProcessed r) ∧
        (processOne listDb validator handler uid fid st r c).1.length + 1 =
          st.length) ∧
      (∀ (st : List SDoc) (ids : List String) (uid : String) (now : Int),
        List.Forall₂ (fun d0 d => d = d0 ∨ d = tombstone d0 now) st
          (markDocumentsAsDeleted st ids uid now).1) := by
  constructor
  · intro validator handler uid fid st r c ex hv how hfind hle hdel
    have hbody := processOneBody_resolves listDb validator handler uid fid st r c hv how
    have hres := resolvePhase_accept_delete handler uid fid st r
      { c with userId := some uid } ex hfind hle hdel
    have h1 : processOne listDb validator handler uid fid st r c =
        (removeFirst st c.id, incProcessed r) :=
      processOne_of_body_ok _ _ _ _ _ _ _ _ _ (hbody.trans hres)
    refine ⟨h1, ?_⟩
    rw [h1]
    exact removeFirst_length st c.id ex hfind
  · intro st ids uid now
    exact markDocumentsAsDeleted_forall2 uid now ids st

/-- C1 witness: the amended theorem applied to a one-document store with an
accepted deletion, and to a one-document soft delete. -/
theorem recon_delete_witness :
    (processOne listDb none none "u" "gen"
        [⟨some "2", 100, false, some "u", "p"⟩] emptyResults
        ⟨some "2", 150, true, none, "q"⟩ =
      (removeFirst [⟨some "2", 100, false, some "u", "p"⟩] (some "2"),
        incProcessed emptyResults)) ∧
      List.Forall₂ (fun d0 d => d = d0 ∨ d = tombstone d0 777)
        [⟨some "3", 5, false, some "u", "p"⟩]
        (markDocumentsAsDeleted [⟨some "3", 5, false, some "u", "p"⟩] ["3"]
          "u" 777).1 :=
  ⟨(recon_delete_removes_tombstone_only_in_markDeleted.1 none none "u" "gen"
      [⟨some "2", 100, false, some "u", "p"⟩] emptyResults
      ⟨some "2", 150, true, none, "q"⟩ ⟨some "2", 100, false, some "u", "p"⟩
      rfl (by decide) (by decide) (by decide) rfl).1,
    recon_delete_removes_tombstone_only_in_markDeleted.2
      [⟨some "3", 5, false, some "u", "p"⟩] ["3"] "u" 777⟩

/-- C2: with an existing server copy whose `updatedAt` equals the incoming
change's, under any conflict handler configuration, the loop takes the
accept branch: the stamped client document is stored in place of the server
copy, `processed` is incremented and neither `conflicts` nor
`serverChanges` changes — no rejection in favor of the server version.
Moreover the conflict branch requires the server copy to be strictly newer:
whenever it is not, `conflicts` and `serverChanges` are untouched. -/
theorem tie_accepts_client_write :
    (∀ (validator : Option Validator) (handler : Option ConflictHandler)
        (uid fid : String) (st : List SDoc) (r : SyncResults) (c ex : SDoc),
        runValidator validator c uid = Except.ok true →
        ¬(truthyId c.userId ∧ c.userId ≠ some uid) →
        st.find? (fun d => d.id == c.id) = some ex →
        ex.updatedAt = c.updatedAt →
        c.deleted = false →
        processOne listDb validator handler uid fid st r c =
          (replaceFirst st c.id { c with userId := some uid },
            incProcessed r) ∧
        { c with userId := some uid } ∈
          (processOne listDb validator handler uid fid st r c).1) ∧
      (∀ (validator : Option Validator) (handler : Option ConflictHandler)
        (uid fid : String) (st : List SDoc) (r : SyncResults) (c ex : SDoc),
        runValidator validator c uid = Except.ok true →
        ¬(truthyId c.userId ∧ c.userId ≠ some uid) →
        st.find? (fun d => d.id == c.id) = some ex →
        ¬ex.updatedAt > c.updatedAt →
        (processOne listDb validator handler uid fid st r c).2.conflicts =
            r.conflicts ∧
          (processOne listDb validator handler uid fid st r c).2.serverChanges =
            r.serverChanges) := by
  constructor
  · intro validator handler uid fid st r c ex hv how hfind heq hdel
    have hle : ¬ex.updatedAt > c.updatedAt := by
      rw [heq]
      exact lt_irrefl _
    have hbody := processOneBody_resolves listDb validator handler uid fid st r c hv how
    have hres := resolvePhase_accept_replace handler uid fid st r
      { c with userId := some uid } ex hfind hle hdel
    have h1 : processOne listDb validator handler uid fid st r c =
        (replaceFirst st c.id { c with userId := some uid }, incProcessed r) :=
      processOne_of_body_ok _ _ _ _ _ _ _ _ _ (hbody.trans hres)
    refine ⟨h1, ?_⟩
    rw [h1]
    exact replaceFirst_mem_new st c.id { c with userId := some uid } ex hfind
  · intro validator handler uid fid st r c ex hv how hfind hle
    have hbody := processOneBody_resolves listDb validator handler uid fid st r c hv how
    cases hdel : c.deleted with
    | true =>
      have hres := resolvePhase_accept_delete handler uid fid st r
        { c with userId := some uid } ex hfind hle hdel
      have h1 := processOne_of_body_ok _ _ _ _ _ _ _ _ _ (hbody.trans hres)
      rw [h1]
      exact ⟨rfl, rfl⟩
    | false =>
      have hres := resolvePhase_accept_replace handler uid fid st r
        { c with userId := some uid } ex hfind hle hdel
      have h1 := processOne_of_body_ok _ _ _ _ _ _ _ _ _ (hbody.trans hres)
      rw [h1]
      exact ⟨rfl, rfl⟩

/-- C2 witness: the theorem applied at a tie (`updatedAt = 100` on both
sides) with a conflict handler configured, showing the accept branch. -/
theorem tie_accepts_client_write_witness :
    (processOne listDb none
        (some (fun ex _ _ => Except.ok (some ex))) "u" "gen"
        [⟨some "4", 100, false, some "u", "server"⟩] emptyResults
        ⟨some "4", 100, false, none, "client"⟩ =
      (replaceFirst [⟨some "4", 100, false, some "u", "server"⟩] (some "4")
          ⟨some "4", 100, false, some "u", "client"⟩,
        incProcessed emptyResults)) ∧
      (⟨some "4", 100, false, some "u", "client"⟩ : SDoc) ∈
        (processOne listDb none
          (some (fun ex _ _ => Except.ok (some ex))) "u" "gen"
          [⟨some "4", 100, false, some "u", "server"⟩] emptyResults
          ⟨some "4", 100, false, none, "client"⟩).1 :=
  tie_accepts_client_write.1 none (some (fun ex _ _ => Except.ok (some ex)))
    "u" "gen" [⟨some "4", 100, false, some "u", "server"⟩] emptyResults
    ⟨some "4", 100, false, none, "client"⟩
    ⟨some "4", 100, false, some "u", "server"⟩
    rfl (by decide) (by decide) rfl rfl

/-- C8: a single document's failure does not abort the batch.  In each of
the three failure modes — the collection validator rejecting the document,
the ownership check failing, and the per-document body throwing (which
covers validator exceptions and store errors) — the loop records one error
with the document's id, leaves the store untouched, and continues with the
remaining documents of the batch.  A throw is recorded on top of the tally
mutated in place before it; the last conjunct pins down the conflict-branch
case: a conflict handler (or its `replaceOne`) throwing after
`results.conflicts++` leaves the conflict counted and still continues the
batch. -/
theorem single_failure_continues_batch :
    (∀ (σ : Type) (db : DbOps σ) (validator : Option Validator)
        (handler : Option ConflictHandler) (uid : String) (uuid : Nat → String)
        (st : σ) (r : SyncResults) (idx : Nat) (c : SDoc) (cs : List SDoc)
        (v : Validator),
        validator = some v → v c uid = Except.ok false →
        processChangesAux db validator handler uid uuid st r idx (c :: cs) =
          processChangesAux db validator handler uid uuid st
            (recErr r c.id "Validação falhou") (idx + 1) cs) ∧
      (∀ (σ : Type) (db : DbOps σ) (validator : Option Validator)
        (handler : Option ConflictHandler) (uid : String) (uuid : Nat → String)
        (st : σ) (r : SyncResults) (idx : Nat) (c : SDoc) (cs : List SDoc),
        runValidator validator c uid = Except.ok true →
        truthyId c.userId ∧ c.userId ≠ some uid →
        processChangesAux db validator handler uid uuid st r idx (c :: cs) =
          processChangesAux db validator handler uid uuid st
            (recErr r c.id "Documento não pertence ao usuário") (idx + 1) cs) ∧
      (∀ (σ : Type) (db : DbOps σ) (validator : Option Validator)
        (handler : Option ConflictHandler) (uid : String) (uuid : Nat → String)
        (st : σ) (r : SyncResults) (idx : Nat) (c : SDoc) (cs : List SDoc)
        (m : String) (r' : SyncResults),
        processOneBody db validator handler uid (uuid idx) st r c =
          Except.error (m, r') →
        processChangesAux db validator handler uid uuid st r idx (c :: cs) =
          processChangesAux db validator handler uid uuid st
            (recErr r' c.id m) (idx + 1) cs) ∧
      (∀ (validator : Option Validator) (h : ConflictHandler) (uid : String)
        (uuid : Nat → String) (st : List SDoc) (r : SyncResults) (idx : Nat)
        (c ex : SDoc) (cs : List SDoc) (m : String),
        runValidator validator c uid = Except.ok true →
        ¬(truthyId c.userId ∧ c.userId ≠ some uid) →
        st.find? (fun d => d.id == c.id) = some ex →
        ex.updatedAt > c.updatedAt →
        h ex { c with userId := some uid } uid = Except.error m →
        processChangesAux listDb validator (some h) uid uuid st r idx
            (c :: cs) =
          processChangesAux listDb validator (some h) uid uuid st
            (recErr (incConflicts r) c.id m) (idx + 1) cs) := by
  refine ⟨?_, ?_, ?_, ?_⟩
  · intro σ db validator handler uid uuid st r idx c cs v hv hfalse
    rw [processChangesAux_cons,
      processOne_of_body_ok _ _ _ _ _ _ _ _ _
        (processOneBody_validation_fails db validator handler uid (uuid idx)
          st r c v hv hfalse)]
  · intro σ db validator handler uid uuid st r idx c cs hv hown
    rw [processChangesAux_cons,
      processOne_of_body_ok _ _ _ _ _ _ _ _ _
        (processOneBody_ownership_fails db validator handler uid (uuid idx)
          st r c hv hown)]
  · intro σ db validator handler uid uuid st r idx c cs m r' hm
    rw [processChangesAux_cons,
      processOne_of_body_error _ _ _ _ _ _ _ _ _ _ hm]
  · intro validator h uid uuid st r idx c ex cs m hv hown hfind hgt hh
    have hres := processOneBody_resolves listDb validator (some h) uid
      (uuid idx) st r c hv hown
    have hthrow := resolvePhase_conflict_handler_throws uid (uuid idx) st r
      { c with userId := some uid } ex h m hfind hgt hh
    rw [processChangesAux_cons,
      processOne_of_body_error _ _ _ _ _ _ _ _ _ _ (hres.trans hthrow)]

/-- C8 witness: the theorem applied to a rejecting validator, an
ownership-mismatched document, a store whose `findOne` throws, and a
conflict handler that throws after the conflict was already counted. -/
theorem single_failure_continues_batch_witness :
    (processChangesAux listDb (some (fun _ _ => Except.ok false)) none "u"
        (fun _ => "g") [] emptyResults 0
        [⟨some "9", 1, false, none, "a"⟩, ⟨some "8", 2, false, none, "b"⟩] =
      processChangesAux listDb (some (fun _ _ => Except.ok false)) none "u"
        (fun _ => "g") [] (recErr emptyResults (some "9") "Validação falhou") 1
        [⟨some "8", 2, false, none, "b"⟩]) ∧
      (processChangesAux listDb none none "u" (fun _ => "g") [] emptyResults 0
          [⟨some "9", 1, false, some "other", "a"⟩,
            ⟨some "8", 2, false, none, "b"⟩] =
        processChangesAux listDb none none "u" (fun _ => "g") []
          (recErr emptyResults (some "9") "Documento não pertence ao usuário")
          1 [⟨some "8", 2, false, none, "b"⟩]) ∧
      (processChangesAux
          (DbOps.mk (fun _ _ => Except.error "db down")
            (fun _ _ => Except.error "db down")
            (fun _ _ _ => Except.error "db down")
            (fun _ _ => Except.error "db down"))
          none none "u" (fun _ => "g") ([] : List SDoc) emptyResults 0
          [⟨some "9", 1, false, none, "a"⟩, ⟨some "8", 2, false, none, "b"⟩] =
        processChangesAux
          (DbOps.mk (fun _ _ => Except.error "db down")
            (fun _ _ => Except.error "db down")
            (fun _ _ _ => Except.error "db down")
            (fun _ _ => Except.error "db down"))
          none none "u" (fun _ => "g") []
          (recErr emptyResults (some "9") "db down") 1
          [⟨some "8", 2, false, none, "b"⟩]) ∧
      (processChangesAux listDb none
          (some (fun _ _ _ => Except.error "handler boom")) "u" (fun _ => "g")
          [⟨some "9", 5, false, none, "s"⟩] emptyResults 0
          [⟨some "9", 1, false, none, "a"⟩, ⟨some "8", 2, false, none, "b"⟩] =
        processChangesAux listDb none
          (some (fun _ _ _ => Except.error "handler boom")) "u" (fun _ => "g")
          [⟨some "9", 5, false, none, "s"⟩]
          (recErr (incConflicts emptyResults) (some "9") "handler boom") 1
          [⟨some "8", 2, false, none, "b"⟩]) :=
  ⟨single_failure_continues_batch.1 (List SDoc) listDb
      (some (fun _ _ => Except.ok false)) none "u" (fun _ => "g") []
      emptyResults 0 ⟨some "9", 1, false, none, "a"⟩
      [⟨some "8", 2, false, none, "b"⟩] (fun _ _ => Except.ok false) rfl rfl,
    single_failure_continues_batch.2.1 (List SDoc) listDb none none "u"
      (fun _ => "g") [] emptyResults 0 ⟨some "9", 1, false, some "other", "a"⟩
      [⟨some "8", 2, false, none, "b"⟩] rfl (by decide),
    single_failure_continues_batch.2.2.1 (List SDoc)
      (DbOps.mk (fun _ _ => Except.error "db down")
        (fun _ _ => Except.error "db down")
        (fun _ _ _ => Except.error "db down")
        (fun _ _ => Except.error "db down"))
      none none "u" (fun _ => "g") [] emptyResults 0
      ⟨some "9", 1, false, none, "a"⟩ [⟨some "8", 2, false, none, "b"⟩]
      "db down" emptyResults rfl,
    single_failure_continues_batch.2.2.2 none
      (fun _ _ _ => Except.error "handler boom") "u" (fun _ => "g")
      [⟨some "9", 5, false, none, "s"⟩] emptyResults 0
      ⟨some "9", 1, false, none, "a"⟩ ⟨some "9", 5, false, none, "s"⟩
      [⟨some "8", 2, false, none, "b"⟩] "handler boom"
      rfl (by decide) (by decide) (by decide) rfl⟩

theorem resolvePhase_insert_deleted (handler : Option ConflictHandler)
    (uid fid : String) (st : List SDoc) (r : SyncResults) (c' : SDoc)
    (hfind : st.find? (fun d => d.id == c'.id) = none)
    (hdel : c'.deleted = true) :
    resolvePhase listDb handler uid fid st r c' =
      Except.ok (st, incProcessed r) := by
  simp only [resolvePhase, listDb, hfind, hdel, if_true]

theorem resolvePhase_insert (handler : Option ConflictHandler)
    (uid fid : String) (st : List SDoc) (r : SyncResults) (c' : SDoc)
    (hfind : st.find? (fun d => d.id == c'.id) = none)
    (hdel : ¬c'.deleted = true) :
    resolvePhase listDb handler uid fid st r c' =
      Except.ok
        (st ++ [if falsyDocId c'.id then { c' with id := some fid } else c'],
          incProcessed r) := by
  simp only [resolvePhase, listDb, hfind, if_neg hdel]

theorem resolvePhase_conflict_nohandler (uid fid : String) (st : List SDoc)
    (r : SyncResults) (c' ex : SDoc)
    (hfind : st.find? (fun d => d.id == c'.id) = some ex)
    (hgt : ex.updatedAt > c'.updatedAt) :
    resolvePhase listDb none uid fid st r c' =
      Except.ok (st, pushServer (incConflicts r) ex) := by
  simp only [resolvePhase, listDb, hfind, if_pos hgt]

theorem processOne_mem_no_handler (validator : Option Validator)
    (uid fid : String) (st : List SDoc) (r : SyncResults) (c d : SDoc)
    (hd : d ∈ (processOne listDb validator none uid fid st r c).1) :
    d ∈ st ∨ d.userId = some uid := by
  cases hv : runValidator validator c uid with
  | error m =>
    have hbody : processOneBody listDb validator none uid fid st r c =
        Except.error (m, r) := by
      rw [processOneBody, hv]
    rw [processOne_of_body_error _ _ _ _ _ _ _ _ _ _ hbody] at hd
    exact Or.inl hd
  | ok vok =>
    cases vok with
    | false =>
      have hbody : processOneBody listDb validator none uid fid st r c =
          Except.ok (st, recErr r c.id "Validação falhou") := by
        rw [processOneBody, hv]
        rfl
      rw [processOne_of_body_ok _ _ _ _ _ _ _ _ _ hbody] at hd
      exact Or.inl hd
    | true =>
      by_cases hown : truthyId c.userId ∧ c.userId ≠ some uid
      · rw [processOne_of_body_ok _ _ _ _ _ _ _ _ _
          (processOneBody_ownership_fails listDb validator none uid fid
            st r c hv hown)] at hd
        exact Or.inl hd
      · have hres := processOneBody_resolves listDb validator none uid fid
          st r c hv hown
        cases hf : st.find? (fun x =>
            x.id == ({ c with userId := some uid } : SDoc).id) with
        | none =>
          by_cases hdel : ({ c with userId := some uid } : SDoc).deleted = true
          · have hb2 := resolvePhase_insert_deleted none uid fid st r
              { c with userId := some uid } hf hdel
            rw [processOne_of_body_ok _ _ _ _ _ _ _ _ _ (hres.trans hb2)] at hd
            exact Or.inl hd
          · have hb2 := resolvePhase_insert none uid fid st r
              { c with userId := some uid } hf hdel
            rw [processOne_of_body_ok _ _ _ _ _ _ _ _ _ (hres.trans hb2)] at hd
            rcases List.mem_append.mp hd with h | h
            · exact Or.inl h
            · have hc := List.mem_singleton.mp h
              right
              rw [hc]
              by_cases hfid :
                  falsyDocId ({ c with userId := some uid } : SDoc).id = true
              · rw [if_pos hfid]
              · rw [if_neg hfid]
        | some ex =>
          by_cases hgt : ex.updatedAt >
              ({ c with userId := some uid } : SDoc).updatedAt
          · have hb2 := resolvePhase_conflict_nohandler uid fid st r
              { c with userId := some uid } ex hf hgt
            rw [processOne_of_body_ok _ _ _ _ _ _ _ _ _ (hres.trans hb2)] at hd
            exact Or.inl hd
          · by_cases hdel : ({ c with userId := some uid } : SDoc).deleted = true
            · have hb2 := resolvePhase_accept_delete none uid fid st r
                { c with userId := some uid } ex hf hgt hdel
              rw [processOne_of_body_ok _ _ _ _ _ _ _ _ _ (hres.trans hb2)] at hd
              exact Or.inl (mem_removeFirst st _ d hd)
            · have hdel' : ({ c with userId := some uid } : SDoc).deleted = false := by
                simpa using hdel
              have hb2 := resolvePhase_accept_replace none uid fid st r
                { c with userId := some uid } ex hf hgt hdel'
              rw [processOne_of_body_ok _ _ _ _ _ _ _ _ _ (hres.trans hb2)] at hd
              rcases mem_replaceFirst st _ _ d hd with h | h
              · exact Or.inl h
              · rw [h]
                exact Or.inr rfl

theorem processChangesAux_mem_no_handler (validator : Option Validator)
    (uid : String) (uuid : Nat → String) :
    ∀ (cs : List SDoc) (st : List SDoc) (r : SyncResults) (idx : Nat) (d : SDoc),
      d ∈ (processChangesAux listDb validator none uid uuid st r idx cs).1 →
      d ∈ st ∨ d.userId = some uid := by
  intro cs
  induction cs with
  | nil => intro st r idx d hd; exact Or.inl hd
  | cons c rest ih =>
    intro st r idx d hd
    rw [processChangesAux_cons] at hd
    rcases ih _ _ _ d hd with h | h
    · exact processOne_mem_no_handler validator uid (uuid idx) st r c d h
    · exact Or.inr h

/-- C10 counterexample: with a custom conflict handler configured, the
document the handler returns is written by `replaceOne` exactly as
returned, without being stamped: a handler resolving a conflict for caller
"alice" can store a document whose user-id field reads "mallory", so not
every write performed through sync carries the requesting actor's id. -/
theorem conflict_handler_writes_unstamped_cex :
    ((processChanges listDb none
        (some (fun _ _ _ =>
          Except.ok (some ⟨some "1", 300, false, some "mallory", "hacked"⟩)))
        "alice" (fun _ => "gen")
        [⟨some "1", 200, false, some "alice", "server"⟩]
        [⟨some "1", 100, false, none, "client"⟩]).1).all
      (fun d => d.userId == some "alice") = false := by
  decide

/-- C10 amended: with no custom conflict handler configured, every document
the ingest loop leaves in the store either was already there or is the
incoming change stamped with the caller's user id: the stamping
`change[userIdField] = userId` happens after the ownership check and before
every write of the change itself (insert and replace alike). -/
theorem sync_writes_carry_caller_id (validator : Option Validator)
    (uid : String) (uuid : Nat → String) (st : List SDoc)
    (changes : List SDoc) (d : SDoc)
    (hd : d ∈ (processChanges listDb validator none uid uuid st changes).1) :
    d ∈ st ∨ d.userId = some uid :=
  processChangesAux_mem_no_handler validator uid uuid changes st emptyResults
    0 d hd

/-- C10 witness: the amended theorem applied to an insert into an empty
store, where the freshly stored document indeed carries the caller's id. -/
theorem sync_writes_carry_caller_id_witness :
    (⟨some "7", 1, false, some "bob", "x"⟩ : SDoc) ∈ ([] : List SDoc) ∨
      (⟨some "7", 1, false, some "bob", "x"⟩ : SDoc).userId = some "bob" :=
  sync_writes_carry_caller_id none "bob" (fun _ => "g") []
    [⟨some "7", 1, false, none, "x"⟩] ⟨some "7", 1, false, some "bob", "x"⟩
    (by decide)

theorem lk_eq_none_of_not_mem_keys {α : Type} (l : List (String × α))
    (k : String) (h : k ∉ keysOf l) : lk l k = none := by
  induction l with
  | nil => rfl
  | cons p rest ih =>
    have h1 : ¬p.1 = k := fun he => h (by rw [← he]; exact List.mem_cons_self _ _)
    have h2 : k ∉ keysOf rest := fun hm => h (List.mem_cons_of_mem _ hm)
    unfold lk
    rw [if_neg h1]
    exact ih h2

theorem mem_keys_of_lk_some {α : Type} (l : List (String × α)) (k : String)
    (v : α) (h : lk l k = some v) : k ∈ keysOf l := by
  induction l with
  | nil => cases h
  | cons p rest ih =>
    unfold lk at h
    by_cases hp : p.1 = k
    · rw [← hp]
      exact List.mem_cons_self _ _
    · rw [if_neg hp] at h
      exact List.mem_cons_of_mem _ (ih h)

theorem lk_of_mem_nodup {α : Type} (l : List (String × α)) (p : String × α)
    (hnd : NdKeys l) (hm : p ∈ l) : lk l p.1 = some p.2 := by
  induction l with
  | nil => cases hm
  | cons q rest ih =>
    have hnd' : NdKeys rest := (List.nodup_cons.mp hnd).2
    have hq : q.1 ∉ keysOf rest := (List.nodup_cons.mp hnd).1
    cases hm with
    | head =>
      unfold lk
      rw [if_pos rfl]
    | tail _ hm =>
      unfold lk
      rw [if_neg ?_]
      · exact ih hnd' hm
      · intro he
        exact hq (he ▸ List.mem_map_of_mem Prod.fst hm)

theorem lk_append_some {α : Type} (a b : List (String × α)) (k : String)
    (v : α) : lk a k = some v → lk (a ++ b) k = some v := by
  induction a with
  | nil => intro h; cases h
  | cons p rest ih =>
    intro h
    unfold lk at h
    show (if p.1 = k then some p.2 else lk (rest ++ b) k) = some v
    by_cases hp : p.1 = k
    · rw [if_pos hp] at h ⊢
      exact h
    · rw [if_neg hp] at h ⊢
      exact ih h

theorem lk_append_none {α : Type} (a b : List (String × α)) (k : String) :
    lk a k = none → lk (a ++ b) k = lk b k := by
  induction a with
  | nil => intro h; rfl
  | cons p rest ih =>
    intro h
    unfold lk at h
    show (if p.1 = k then some p.2 else lk (rest ++ b) k) = lk b k
    by_cases hp : p.1 = k
    · rw [if_pos hp] at h
      cases h
    · rw [if_neg hp] at h ⊢
      exact ih h

theorem lk_delKey {α : Type} (l : List (String × α)) (j k : String) :
    lk (delKey l j) k = if j = k then none else lk l k := by
  induction l with
  | nil =>
    by_cases hjk : j = k <;> simp [delKey, lk, hjk]
  | cons p rest ih =>
    unfold delKey
    by_cases hpj : p.1 = j
    · rw [if_pos hpj, ih]
      by_cases hjk : j = k
      · rw [if_pos hjk, if_pos hjk]
      · rw [if_neg hjk, if_neg hjk]
        show _ = if p.1 = k then some p.2 else lk rest k
        rw [if_neg (by rw [hpj]; exact hjk)]
    · rw [if_neg hpj]
      show (if p.1 = k then some p.2 else lk (delKey rest j) k) = _
      by_cases hpk : p.1 = k
      · rw [if_pos hpk,
          if_neg (show ¬j = k from fun he => hpj (hpk.trans he.symm))]
        show _ = if p.1 = k then some p.2 else lk rest k
        rw [if_pos hpk]
      · rw [if_neg hpk, ih]
        by_cases hjk : j = k
        · rw [if_pos hjk, if_pos hjk]
        · rw [if_neg hjk, if_neg hjk]
          show _ = if p.1 = k then some p.2 else lk rest k
          rw [if_neg hpk]

theorem lk_filterMapKey {β γ : Type} (g : String → β → Option γ) :
    ∀ (l : List (String × β)) (k : String), NdKeys l →
      lk (l.filterMap (fun p => (g p.1 p.2).map (Prod.mk p.1))) k =
        (lk l k).bind (g k) := by
  intro l
  induction l with
  | nil => intro k _; rfl
  | cons p rest ih =>
    intro k hnd
    have hnd' : NdKeys rest := (List.nodup_cons.mp hnd).2
    have hp : p.1 ∉ keysOf rest := (List.nodup_cons.mp hnd).1
    rw [List.filterMap_cons]
    cases hg : g p.1 p.2 with
    | none =>
      simp only [Option.map_none']
      rw [ih k hnd']
      show _ = (if p.1 = k then some p.2 else lk rest k).bind (g k)
      by_cases hpk : p.1 = k
      · rw [if_pos hpk]
        show (lk rest k).bind (g k) = g k p.2
        rw [lk_eq_none_of_not_mem_keys rest k (hpk ▸ hp), ← hpk, hg]
        rfl
      · rw [if_neg hpk]
    | some d =>
      simp only [Option.map_some']
      show (if p.1 = k then some d else
        lk (rest.filterMap (fun p => (g p.1 p.2).map (Prod.mk p.1))) k) = _
      by_cases hpk : p.1 = k
      · rw [if_pos hpk]
        show _ = (if p.1 = k then some p.2 else lk rest k).bind (g k)
        rw [if_pos hpk]
        show some d = g k p.2
        rw [← hpk, hg]
      · rw [if_neg hpk, ih k hnd']
        show _ = (if p.1 = k then some p.2 else lk rest k).bind (g k)
        rw [if_neg hpk]

theorem diffList_lk (fl fr : List (String × JAtom)) (k : String)
    (hfl : NdKeys fl) (hfr : NdKeys fr) :
    lk (diffList fl fr) k = dSpec (lk fl k) (lk fr k) := by
  unfold diffList
  cases h1 : lk fl k with
  | some vl =>
    have hmods : lk (fl.filterMap
        (fun p => (modOf fr p.1 p.2).map (Prod.mk p.1))) k = modOf fr k vl := by
      have h := lk_filterMapKey (modOf fr) fl k hfl
      rw [h1] at h
      exact h
    cases h2 : lk fr k with
    | none =>
      have hsome : lk (fl.filterMap
          (fun p => (modOf fr p.1 p.2).map (Prod.mk p.1))) k =
            some (FieldDelta.removed vl) := by
        rw [hmods]
        unfold modOf
        rw [h2]
      rw [lk_append_some _ _ _ _ hsome]
      rfl
    | some vr =>
      by_cases hv : vl = vr
      · have hnone : lk (fl.filterMap
            (fun p => (modOf fr p.1 p.2).map (Prod.mk p.1))) k = none := by
          rw [hmods]
          unfold modOf
          rw [h2]
          show (if vl = vr then none
            else some (FieldDelta.changed vl vr)) = none
          rw [if_pos hv]
        rw [lk_append_none _ _ _ hnone]
        have hadds : lk (fr.filterMap
            (fun p => (addOf fl p.1 p.2).map (Prod.mk p.1))) k =
              addOf fl k vr := by
          have h := lk_filterMapKey (addOf fl) fr k hfr
          rw [h2] at h
          exact h
        rw [hadds]
        show addOf fl k vr = dSpec (some vl) (some vr)
        unfold addOf dSpec
        rw [h1]
        show none = if vl = vr then none else some (FieldDelta.changed vl vr)
        rw [if_pos hv]
      · have hsome : lk (fl.filterMap
            (fun p => (modOf fr p.1 p.2).map (Prod.mk p.1))) k =
              some (FieldDelta.changed vl vr) := by
          rw [hmods]
          unfold modOf
          rw [h2]
          show (if vl = vr then none else some (FieldDelta.changed vl vr)) =
            some (FieldDelta.changed vl vr)
          rw [if_neg hv]
        rw [lk_append_some _ _ _ _ hsome]
        show some (FieldDelta.changed vl vr) =
          if vl = vr then none else some (FieldDelta.changed vl vr)
        rw [if_neg hv]
  | none =>
    have hnone : lk (fl.filterMap
        (fun p => (modOf fr p.1 p.2).map (Prod.mk p.1))) k = none := by
      have h := lk_filterMapKey (modOf fr) fl k hfl
      rw [h1] at h
      exact h
    rw [lk_append_none _ _ _ hnone]
    have hadds := lk_filterMapKey (addOf fl) fr k hfr
    cases h2 : lk fr k with
    | none =>
      rw [h2] at hadds
      rw [hadds]
      rfl
    | some vr =>
      rw [h2] at hadds
      rw [hadds]
      show addOf fl k vr = _
      unfold addOf dSpec
      rw [h1]

theorem keysOf_filterMapKey_sublist {β γ : Type} (g : String → β → Option γ)
    (l : List (String × β)) :
    List.Sublist
      (keysOf (l.filterMap (fun p => (g p.1 p.2).map (Prod.mk p.1))))
      (keysOf l) := by
  induction l with
  | nil => exact List.Sublist.refl _
  | cons p rest ih =>
    rw [List.filterMap_cons]
    cases g p.1 p.2 with
    | none =>
      simp only [Option.map_none']
      exact List.Sublist.cons p.1 ih
    | some d =>
      simp only [Option.map_some']
      exact List.Sublist.cons₂ p.1 ih

theorem lk_isSome_of_mem_keys {α : Type} (l : List (String × α)) (k : String)
    (h : k ∈ keysOf l) : ∃ v, lk l k = some v := by
  induction l with
  | nil => cases h
  | cons p rest ih =>
    by_cases hp : p.1 = k
    · refine ⟨p.2, ?_⟩
      unfold lk
      rw [if_pos hp]
    · cases h with
      | head => exact absurd rfl hp
      | tail _ h =>
        rcases ih h with ⟨v, hv⟩
        refine ⟨v, ?_⟩
        unfold lk
        rw [if_neg hp]
        exact hv

theorem mem_keys_adds_lk_none (fl fr : List (String × JAtom)) (k : String)
    (h : k ∈ keysOf (fr.filterMap
      (fun p => (addOf fl p.1 p.2).map (Prod.mk p.1)))) :
    lk fl k = none := by
  rcases List.mem_map.mp h with ⟨q, hq, hfst⟩
  rcases List.mem_filterMap.mp hq with ⟨p, hp, heq⟩
  rcases Option.map_eq_some'.mp heq with ⟨d, hd, hpair⟩
  have hpk : p.1 = k := by
    rw [← hfst, ← hpair]
  unfold addOf at hd
  cases h3 : lk fl p.1 with
  | none =>
    rw [← hpk]
    exact h3
  | some v =>
    rw [h3] at hd
    cases hd

theorem NdKeys_diffList (fl fr : List (String × JAtom))
    (hfl : NdKeys fl) (hfr : NdKeys fr) : NdKeys (diffList fl fr) := by
  unfold NdKeys diffList keysOf
  rw [List.map_append]
  refine List.Nodup.append ?_ ?_ ?_
  · exact (keysOf_filterMapKey_sublist (modOf fr) fl).nodup hfl
  · exact (keysOf_filterMapKey_sublist (addOf fl) fr).nodup hfr
  · intro k hk1 hk2
    have hnone := mem_keys_adds_lk_none fl fr k hk2
    have hmem : k ∈ keysOf fl :=
      (keysOf_filterMapKey_sublist (modOf fr) fl).subset hk1
    rcases lk_isSome_of_mem_keys fl k hmem with ⟨v, hv⟩
    rw [hv] at hnone
    cases hnone

theorem patchObj_lk :
    ∀ (ds : DeltaObj) (fs : List (String × JAtom)) (k : String), NdKeys ds →
      lk (patchObj fs ds) k = pSpec (lk ds k) (lk fs k) := by
  intro ds
  induction ds with
  | nil => intro fs k _; rfl
  | cons q rest ih =>
    intro fs k hnd
    have hnd' : NdKeys rest := (List.nodup_cons.mp hnd).2
    have hq : q.1 ∉ keysOf rest := (List.nodup_cons.mp hnd).1
    show lk (patchObj (patchField fs q.1 q.2) rest) k = _
    rw [ih (patchField fs q.1 q.2) k hnd']
    by_cases hqk : q.1 = k
    · have hrest : lk rest k = none :=
        lk_eq_none_of_not_mem_keys rest k (hqk ▸ hq)
      have hlkq : lk (q :: rest) k = some q.2 := by
        unfold lk
        rw [if_pos hqk]
      rw [hrest, hlkq]
      show lk (patchField fs q.1 q.2) k = pSpec (some q.2) (lk fs k)
      cases hq2 : q.2 with
      | added v =>
        show lk (setKey fs q.1 v) k = some v
        rw [lk_setKey, if_pos hqk]
      | changed o n =>
        show lk (setKey fs q.1 n) k = some n
        rw [lk_setKey, if_pos hqk]
      | removed o =>
        show lk (delKey fs q.1) k = none
        rw [lk_delKey, if_pos hqk]
    · have hlkq : lk (q :: rest) k = lk rest k := by
        show (if q.1 = k then some q.2 else lk rest k) = lk rest k
        rw [if_neg hqk]
      rw [hlkq]
      have hpf : lk (patchField fs q.1 q.2) k = lk fs k := by
        cases hq2 : q.2 with
        | added v =>
          show lk (setKey fs q.1 v) k = lk fs k
          rw [lk_setKey, if_neg hqk]
        | changed o n =>
          show lk (setKey fs q.1 n) k = lk fs k
          rw [lk_setKey, if_neg hqk]
        | removed o =>
          show lk (delKey fs q.1) k = lk fs k
          rw [lk_delKey, if_neg hqk]
      rw [hpf]

theorem mem_keys_setKey {α : Type} (l : List (String × α)) (k : String)
    (v : α) (j : String) (h : j ∈ keysOf (setKey l k v)) :
    j ∈ keysOf l ∨ j = k := by
  induction l with
  | nil =>
    cases h with
    | head => exact Or.inr rfl
    | tail _ h => cases h
  | cons p rest ih =>
    unfold setKey at h
    by_cases hp : p.1 = k
    · rw [if_pos hp] at h
      cases h with
      | head => exact Or.inr rfl
      | tail _ h => exact Or.inl (List.mem_cons_of_mem _ h)
    · rw [if_neg hp] at h
      cases h with
      | head => exact Or.inl (List.mem_cons_self _ _)
      | tail _ h =>
        rcases ih h with h' | h'
        · exact Or.inl (List.mem_cons_of_mem _ h')
        · exact Or.inr h'

theorem nodup_setKey {α : Type} (l : List (String × α)) (k : String) (v : α)
    (h : NdKeys l) : NdKeys (setKey l k v) := by
  induction l with
  | nil => simp [setKey, NdKeys, keysOf]
  | cons p rest ih =>
    have h2 : NdKeys rest := (List.nodup_cons.mp h).2
    have h1 : p.1 ∉ keysOf rest := (List.nodup_cons.mp h).1
    unfold setKey
    by_cases hp : p.1 = k
    · rw [if_pos hp]
      refine List.nodup_cons.mpr ⟨?_, h2⟩
      rw [← hp]
      exact h1
    · rw [if_neg hp]
      refine List.nodup_cons.mpr ⟨?_, ih h2⟩
      intro hm
      rcases mem_keys_setKey rest k v p.1 hm with h' | h'
      · exact h1 h'
      · exact hp h'

theorem delKey_sublist {α : Type} (l : List (String × α)) (k : String) :
    List.Sublist (delKey l k) l := by
  induction l with
  | nil => exact List.Sublist.refl _
  | cons p rest ih =>
    unfold delKey
    by_cases hp : p.1 = k
    · rw [if_pos hp]
      exact List.Sublist.cons p ih
    · rw [if_neg hp]
      exact List.Sublist.cons₂ p ih

theorem nodup_delKey {α : Type} (l : List (String × α)) (k : String)
    (h : NdKeys l) : NdKeys (delKey l k) :=
  ((delKey_sublist l k).map Prod.fst).nodup h

theorem nodup_patchField (fs : List (String × JAtom)) (k : String)
    (d : FieldDelta) (h : NdKeys fs) : NdKeys (patchField fs k d) := by
  cases d with
  | added v => exact nodup_setKey fs k v h
  | changed o n => exact nodup_setKey fs k n h
  | removed o => exact nodup_delKey fs k h

theorem nodup_patchObj :
    ∀ (ds : DeltaObj) (fs : List (String × JAtom)), NdKeys fs →
      NdKeys (patchObj fs ds) := by
  intro ds
  induction ds with
  | nil => intro fs h; exact h
  | cons q rest ih =>
    intro fs h
    exact ih (patchField fs q.1 q.2) (nodup_patchField fs q.1 q.2 h)

theorem diffObj_some_eq (fl fr : List (String × JAtom)) (ds : DeltaObj)
    (hds : diffObj fl fr = some ds) : ds = diffList fl fr := by
  unfold diffObj at hds
  cases hd : diffList fl fr with
  | nil =>
    rw [hd] at hds
    cases hds
  | cons a as =>
    rw [hd] at hds
    cases hds
    rfl

theorem diff_patch_lookup (fl fr : List (String × JAtom)) (ds : DeltaObj)
    (hfl : NdKeys fl) (hfr : NdKeys fr) (hds : diffObj fl fr = some ds)
    (k : String) : lk (patchObj fl ds) k = lk fr k := by
  rw [diffObj_some_eq fl fr ds hds,
    patchObj_lk (diffList fl fr) fl k (NdKeys_diffList fl fr hfl hfr),
    diffList_lk fl fr k hfl hfr]
  cases h1 : lk fl k with
  | none =>
    cases h2 : lk fr k with
    | none => rfl
    | some vr => rfl
  | some vl =>
    cases h2 : lk fr k with
    | none => rfl
    | some vr =>
      show pSpec (if vl = vr then none else some (FieldDelta.changed vl vr))
        (some vl) = some vr
      by_cases hv : vl = vr
      · rw [if_pos hv]
        show some vl = some vr
        rw [hv]
      · rw [if_neg hv]
        rfl

theorem jdocEquiv_of_lookup (a b : List (String × JAtom)) (ha : NdKeys a)
    (hb : NdKeys b) (h : ∀ k, lk a k = lk b k) :
    jdocEquiv (JDoc.mk a) (JDoc.mk b) := by
  constructor
  · intro p hp
    rw [← h p.1]
    exact lk_of_mem_nodup a p ha hp
  · intro p hp
    rw [h p.1]
    exact lk_of_mem_nodup b p hb hp

theorem jdocEquiv_refl (a : List (String × JAtom)) (ha : NdKeys a) :
    jdocEquiv (JDoc.mk a) (JDoc.mk a) :=
  jdocEquiv_of_lookup a a ha ha (fun _ => rfl)

theorem jdocLen_ge_two (d : JDoc) : 2 ≤ jdocLen d := by
  unfold jdocLen membersLen
  cases d.fields.map (fun p => strLen p.1 + 1 + atomLen p.2) with
  | nil => exact le_refl 2
  | cons a as =>
    show 2 ≤ 2 + (a :: as).sum + ((a :: as).length - 1)
    omega

/-- C4 counterexample: the claim says `generateDelta` returns `Full` when
the diff is large and otherwise a delta; but when the two versions are
equal, `jsondiffpatch` returns `undefined` and
`JSON.stringify(undefined).length` throws a `TypeError`, so neither unit is
returned. -/
theorem generateDelta_equal_docs_throws_cex :
    generateDeltaCore
        (some (JDoc.mk [("id", JAtom.jstr "1"), ("n", JAtom.jint 7)]))
        (JDoc.mk [("id", JAtom.jstr "1"), ("n", JAtom.jint 7)]) =
      Except.error "TypeError: cannot read length of undefined" := by
  rfl

/-- C4 amended: with no previous version the unit is `Full`; with a
previous version that differs from the current one, the unit is `Full`
exactly when the serialized diff size strictly exceeds 60 percent of the
serialized document size (`deltaSize > docSize * 0.6`, stated as
`5 * deltaSize > 3 * docSize`), and a delta carrying `baseVersion`
otherwise; a diff whose serialized size is exactly 70 percent of the
document size therefore yields `Full`.  When the previous version equals
the current one, the call throws instead of returning a unit (see the
counterexample). -/
theorem generateDelta_threshold :
    (∀ cur : JDoc,
        generateDeltaCore none cur = Except.ok (TransferUnit.full cur)) ∧
      (∀ (lv cur : JDoc) (ds : DeltaObj),
        diffObj lv.fields cur.fields = some ds →
        5 * deltaLen ds > 3 * jdocLen cur →
        generateDeltaCore (some lv) cur = Except.ok (TransferUnit.full cur)) ∧
      (∀ (lv cur : JDoc) (ds : DeltaObj),
        diffObj lv.fields cur.fields = some ds →
        ¬5 * deltaLen ds > 3 * jdocLen cur →
        generateDeltaCore (some lv) cur =
          Except.ok (TransferUnit.delta ds (revOf lv))) ∧
      (∀ (lv cur : JDoc) (ds : DeltaObj),
        diffObj lv.fields cur.fields = some ds →
        10 * deltaLen ds = 7 * jdocLen cur →
        generateDeltaCore (some lv) cur = Except.ok (TransferUnit.full cur)) := by
  refine ⟨fun cur => rfl, ?_, ?_, ?_⟩
  · intro lv cur ds hds hgt
    simp only [generateDeltaCore, hds]
    rw [if_pos hgt]
  · intro lv cur ds hds hle
    simp only [generateDeltaCore, hds]
    rw [if_neg hle]
  · intro lv cur ds hds h7
    have h2 : 2 ≤ jdocLen cur := jdocLen_ge_two cur
    have hgt : 5 * deltaLen ds > 3 * jdocLen cur := by omega
    simp only [generateDeltaCore, hds]
    rw [if_pos hgt]

/-- C4 witness: the threshold conjuncts applied to a document of serialized
size 20 whose diff serializes to exactly 14 characters (70 percent), which
falls back to `Full`, and to an absent previous version. -/
theorem generateDelta_threshold_witness :
    generateDeltaCore
        (some (JDoc.mk [("a", JAtom.jint 12), ("b", JAtom.jstr "xxxx")]))
        (JDoc.mk [("a", JAtom.jint 345), ("b", JAtom.jstr "xxxx")]) =
      Except.ok (TransferUnit.full
        (JDoc.mk [("a", JAtom.jint 345), ("b", JAtom.jstr "xxxx")])) ∧
      generateDeltaCore none (JDoc.mk [("x", JAtom.jnull)]) =
        Except.ok (TransferUnit.full (JDoc.mk [("x", JAtom.jnull)])) :=
  ⟨generateDelta_threshold.2.2.2
      (JDoc.mk [("a", JAtom.jint 12), ("b", JAtom.jstr "xxxx")])
      (JDoc.mk [("a", JAtom.jint 345), ("b", JAtom.jstr "xxxx")])
      [("a", FieldDelta.changed (JAtom.jint 12) (JAtom.jint 345))]
      rfl (by decide),
    generateDelta_threshold.1 (JDoc.mk [("x", JAtom.jnull)])⟩

/-- C5 counterexample: the round-trip claim quantifies over all pairs of
versions of a document, including equal ones; for `d1 = d2` the transfer
unit is never produced — `generateDelta` throws a `TypeError` — so
`apply(d1, computeTransferUnit(d1, d2)) == d2` fails to hold there. -/
theorem delta_round_trip_equal_docs_cex :
    generateDeltaCore (some (JDoc.mk [("t", JAtom.jstr "same")]))
        (JDoc.mk [("t", JAtom.jstr "same")]) =
      Except.error "TypeError: cannot read length of undefined" := by
  rfl

/-- C5 amended: whenever `generateDelta` does return a transfer unit (which
it does exactly when the two versions differ), applying that unit to the
base reconstructs the target up to JSON object equality, both for the
`Full` fallback and for the `Delta` case; for equal versions the call
throws instead (see the counterexample). -/
theorem delta_round_trip (fl fr : List (String × JAtom)) (u : TransferUnit)
    (hfl : NdKeys fl) (hfr : NdKeys fr)
    (hu : generateDeltaCore (some (JDoc.mk fl)) (JDoc.mk fr) = Except.ok u) :
    jdocEquiv (applyUnit (JDoc.mk fl) u) (JDoc.mk fr) := by
  simp only [generateDeltaCore] at hu
  cases hds : diffObj fl fr with
  | none =>
    rw [show diffObj (JDoc.mk fl).fields (JDoc.mk fr).fields = none from hds]
      at hu
    cases hu
  | some ds =>
    rw [show diffObj (JDoc.mk fl).fields (JDoc.mk fr).fields = some ds from hds]
      at hu
    have hu' : (if 5 * deltaLen ds > 3 * jdocLen (JDoc.mk fr) then
        Except.ok (TransferUnit.full (JDoc.mk fr))
      else Except.ok (TransferUnit.delta ds (revOf (JDoc.mk fl)))) =
        Except.ok u := hu
    by_cases ht : 5 * deltaLen ds > 3 * jdocLen (JDoc.mk fr)
    · rw [if_pos ht] at hu'
      cases hu'
      exact jdocEquiv_refl fr hfr
    · rw [if_neg ht] at hu'
      cases hu'
      show jdocEquiv (JDoc.mk (patchObj fl ds)) (JDoc.mk fr)
      exact jdocEquiv_of_lookup _ _ (nodup_patchObj ds fl hfl) hfr
        (diff_patch_lookup fl fr ds hfl hfr hds)

/-- C5 witness: the round trip applied to two versions of a document whose
diff stays below the threshold, so the `Delta` case is exercised. -/
theorem delta_round_trip_witness :
    jdocEquiv
      (applyUnit
        (JDoc.mk [("_rev", JAtom.jint 1),
          ("t", JAtom.jstr "hello world foo bar baz"),
          ("done", JAtom.jbool true)])
        (TransferUnit.delta
          [("done", FieldDelta.changed (JAtom.jbool true) (JAtom.jbool false))]
          (JAtom.jint 1)))
      (JDoc.mk [("_rev", JAtom.jint 1),
        ("t", JAtom.jstr "hello world foo bar baz"),
        ("done", JAtom.jbool false)]) :=
  delta_round_trip
    [("_rev", JAtom.jint 1), ("t", JAtom.jstr "hello world foo bar baz"),
      ("done", JAtom.jbool true)]
    [("_rev", JAtom.jint 1), ("t", JAtom.jstr "hello world foo bar baz"),
      ("done", JAtom.jbool false)]
    (TransferUnit.delta
      [("done", FieldDelta.changed (JAtom.jbool true) (JAtom.jbool false))]
      (JAtom.jint 1))
    (by decide) (by decide) rfl

/-- C6 counterexample: `applyDelta` is claimed to fail with
`DeltaApplyError` when the base does not match the base version recorded in
the unit.  Concretely, a unit generated from a base with `_rev = 1` records
`baseVersion = 1`, yet applying its delta to a document with `_rev = 2`
succeeds and returns a patched document — no check happens and no error
exists in the source. -/
theorem applyDelta_no_base_check_cex :
    generateDeltaCore
        (some (JDoc.mk [("_rev", JAtom.jint 1),
          ("title", JAtom.jstr "some long title here ok"),
          ("done", JAtom.jbool false)]))
        (JDoc.mk [("_rev", JAtom.jint 1),
          ("title", JAtom.jstr "some long title here ok"),
          ("done", JAtom.jbool true)]) =
      Except.ok (TransferUnit.delta
        [("done", FieldDelta.changed (JAtom.jbool false) (JAtom.jbool true))]
        (JAtom.jint 1)) ∧
      revOf (JDoc.mk [("_rev", JAtom.jint 2),
        ("title", JAtom.jstr "some long title here ok"),
        ("done", JAtom.jbool false)]) = JAtom.jint 2 ∧
      applyDelta
          (JDoc.mk [("_rev", JAtom.jint 2),
            ("title", JAtom.jstr "some long title here ok"),
            ("done", JAtom.jbool false)])
          [("done", FieldDelta.changed (JAtom.jbool false) (JAtom.jbool true))] =
        JDoc.mk [("_rev", JAtom.jint 2),
          ("title", JAtom.jstr "some long title here ok"),
          ("done", JAtom.jbool true)] :=
  ⟨rfl, rfl, rfl⟩

/-- C6 amended: `applyDelta` performs no base-version comparison at all: it
is a bare `diffPatcher.patch`, total on every base document, whose result at
each key is fully determined by the delta entry and the base's own content —
the `baseVersion` tag recorded by `generateDelta` is never consulted and no
`DeltaApplyError` exists in the source. -/
theorem applyDelta_ignores_base_version (fs : List (String × JAtom))
    (ds : DeltaObj) (k : String) (hds : NdKeys ds) :
    lk (applyDelta (JDoc.mk fs) ds).fields k = pSpec (lk ds k) (lk fs k) :=
  patchObj_lk ds fs k hds

/-- C6 witness: the amended theorem applied to the mismatched base of the
counterexample at the patched key. -/
theorem applyDelta_ignores_base_version_witness :
    lk (applyDelta
        (JDoc.mk [("_rev", JAtom.jint 2),
          ("title", JAtom.jstr "some long title here ok"),
          ("done", JAtom.jbool false)])
        [("done",
          FieldDelta.changed (JAtom.jbool false) (JAtom.jbool true))]).fields
      "done" =
      pSpec
        (lk [("done",
          FieldDelta.changed (JAtom.jbool false) (JAtom.jbool true))] "done")
        (lk [("_rev", JAtom.jint 2),
          ("title", JAtom.jstr "some long title here ok"),
          ("done", JAtom.jbool false)] "done") :=
  applyDelta_ignores_base_version
    [("_rev", JAtom.jint 2), ("title", JAtom.jstr "some long title here ok"),
      ("done", JAtom.jbool false)]
    [("done", FieldDelta.changed (JAtom.jbool false) (JAtom.jbool true))]
    "done" (by decide)

end MongoSync
